import Mathlib

/-!
Verification development for the AURA16 16-bit MIPS pipeline simulator.

The development shallowly embeds the two core components of the repository:

* `simulator/cpu.py` — the five-stage pipelined CPU (`MIPS_CPU`), embedded as a
  Lean structure `MIPS_CPU` with a pure `MIPS_CPU.step` function.  Machine
  words travel through the Python code as four-digit uppercase hex strings;
  `int(w, 16)` and `format(n, '04X')` are mutually inverse on 16-bit words
  (this is proved in the assembler part below), so inside the CPU a word is
  embedded as the `Nat` it denotes.  Python `int` values that can go negative
  (the program counter, sign-extended immediates, latch value fields) are
  embedded as `Int`; register and data-memory cells are written only through
  `& 0xFFFF` masks, hence embedded as `Nat`.  Python dict/set state is
  embedded as insertion-ordered association lists, matching the observable
  behaviour (lookup, membership, length) of the source exactly.
  An uncaught `IndexError` (fetch from a negative PC further back than the
  start of instruction memory, via Python's negative-index semantics) makes
  `step` return `none`: Python raises and no cycle completes.

* `simulator/assembler.py` — tokenizer, operand parsers, instruction encoder
  and disassembler, embedded over `List Char` with the relevant Python string
  primitives (`strip`, `split`, `lower`, `str`, `int`) modelled explicitly.
-/

/-! ### Python integer primitives -/

/-- Python `a & b` on unbounded ints is two's-complement bitwise and;
`Int.land` implements exactly that. -/
def pyAnd (a b : Int) : Int := Int.land a b

/-- Python `a | b` on unbounded ints. -/
def pyOr (a b : Int) : Int := Int.lor a b

/-- Python `x & 0xFFFF`: the low 16 bits of an unbounded int, always
nonnegative, so the result lives in `Nat`. -/
def mask16 (a : Int) : Nat := (pyAnd a 0xFFFF).toNat

/-- Python list indexing `l[i]` including negative-index semantics;
`none` models an uncaught `IndexError`. -/
def pyIndex (l : List Nat) (i : Int) : Option Nat :=
  if 0 ≤ i then l.get? i.toNat
  else if (-i).toNat ≤ l.length then l.get? (l.length - (-i).toNat)
  else none

/-! ### Python dict / set state (insertion-ordered association lists)

`data_memory` is a Python `dict`; `_seen_in_if` / `_seen_in_wb` are Python
sets of `(pc, word)` pairs.  The source only ever uses lookup-with-default,
containment, item assignment, `add`, and `len`, all of which are reproduced
here on insertion-ordered lists without duplicate keys. -/

/-- Python `d[k] = v` on a dict: overwrite in place or append. -/
def dictSet (m : List (Nat × Nat)) (k v : Nat) : List (Nat × Nat) :=
  match m with
  | [] => [(k, v)]
  | (k1, v1) :: rest => if k1 = k then (k, v) :: rest else (k1, v1) :: dictSet rest k v

/-- Python `d.get(k, d0)`. -/
def dictGet (m : List (Nat × Nat)) (k d0 : Nat) : Nat :=
  match m with
  | [] => d0
  | (k1, v1) :: rest => if k1 = k then v1 else dictGet rest k d0

/-- Python `k in d`. -/
def dictHas (m : List (Nat × Nat)) (k : Nat) : Bool :=
  match m with
  | [] => false
  | (k1, _) :: rest => k1 = k || dictHas rest k

/-- Python `s.add(x)` on a set: append if absent. -/
def setAdd (s : List (Int × Nat)) (x : Int × Nat) : List (Int × Nat) :=
  if x ∈ s then s else s ++ [x]

/-! ### Pipeline latches (`_empty_if_id` … `_empty_mem_wb`) -/

/-- The IF/ID latch dict. -/
structure IFID where
  instruction : Option Nat
  pc : Int
  valid : Bool
deriving Repr, DecidableEq

/-- Return value of `MIPS_CPU._empty_if_id`. -/
def empty_if_id : IFID := { instruction := none, pc := 0, valid := false }

/-- The ID/EX latch dict.  `alu_op` keeps the Python string tag. -/
structure IDEX where
  instruction : Option Nat
  pc : Int
  opcode : Nat
  rs : Nat
  rt : Nat
  rd : Nat
  funct : Nat
  imm : Int
  address : Nat
  rs_val : Int
  rt_val : Int
  reg_write : Bool
  mem_read : Bool
  mem_write : Bool
  mem_to_reg : Bool
  branch : Bool
  jump : Bool
  alu_op : String
  valid : Bool
deriving Repr, DecidableEq

/-- Return value of `MIPS_CPU._empty_id_ex`. -/
def empty_id_ex : IDEX :=
  { instruction := none, pc := 0, opcode := 0, rs := 0, rt := 0, rd := 0, funct := 0
    imm := 0, address := 0, rs_val := 0, rt_val := 0, reg_write := false
    mem_read := false, mem_write := false, mem_to_reg := false, branch := false
    jump := false, alu_op := "NOP", valid := false }

/-- The EX/MEM latch dict. -/
structure EXMEM where
  instruction : Option Nat
  pc : Int
  alu_result : Int
  rt_val : Int
  rd : Nat
  reg_write : Bool
  mem_read : Bool
  mem_write : Bool
  mem_to_reg : Bool
  valid : Bool
deriving Repr, DecidableEq

/-- Return value of `MIPS_CPU._empty_ex_mem`. -/
def empty_ex_mem : EXMEM :=
  { instruction := none, pc := 0, alu_result := 0, rt_val := 0, rd := 0
    reg_write := false, mem_read := false, mem_write := false
    mem_to_reg := false, valid := false }

/-- The MEM/WB latch dict. -/
structure MEMWB where
  instruction : Option Nat
  pc : Int
  alu_result : Int
  mem_data : Int
  rd : Nat
  reg_write : Bool
  mem_to_reg : Bool
  valid : Bool
deriving Repr, DecidableEq

/-- Return value of `MIPS_CPU._empty_mem_wb`. -/
def empty_mem_wb : MEMWB :=
  { instruction := none, pc := 0, alu_result := 0, mem_data := 0, rd := 0
    reg_write := false, mem_to_reg := false, valid := false }

/-! ### Observability records

The Python code stores these as dicts of f-strings over a few numeric
fields; every string in them is an injective rendering of the fields kept
here, so the embedding keeps the fields. -/

/-- Which latch a forwarded operand came from. -/
inductive FwdSource where
  | EX_MEM
  | MEM_WB
deriving Repr, DecidableEq

/-- One `forward_a` / `forward_b` record: source latch, register number
(rendered in the source dict), forwarded value. -/
structure Fwd where
  source : FwdSource
  rd : Nat
  value : Int
deriving Repr, DecidableEq

/-- One `stall_info` record; the constructors are the four assignment sites
in `_stage_id`, with the numeric fields that appear in their f-strings. -/
inductive StallInfo where
  | loadUseJR (rs : Nat)
  | dataHazardJR (rs : Nat)
  | loadUse (ldRd : Nat) (onRs : Bool)
  | loadUseBranch (ldRd : Nat)
deriving Repr, DecidableEq

/-- One `memory_warning` record. -/
structure MemWarning where
  address : Nat
  instruction : Option Nat
deriving Repr, DecidableEq

/-- One `control_hazard` record: whether `branch_taken` was set (rendered as
the Branch/Jump strings), the flushed IF/ID word (rendered through
`disassemble`) and the target address. -/
structure ControlHazard where
  isBranch : Bool
  flushedInstr : Option Nat
  targetAddress : Option Int
deriving Repr, DecidableEq

/-- One `pipeline_history` snapshot appended per cycle by `step`.
All `*_PC` fields except the IF and WB ones always receive an int. -/
structure CycleSnapshot where
  cycle : Nat
  ifInstr : Option Nat
  ifPc : Option Int
  idInstr : Option Nat
  idPc : Int
  exInstr : Option Nat
  exPc : Int
  memInstr : Option Nat
  memPc : Int
  wbInstr : Option Nat
  wbPc : Option Int
deriving Repr, DecidableEq

/-- One `forward_history` record. -/
structure FwdRecord where
  cycle : Nat
  forward_a : Option Fwd
  forward_b : Option Fwd
deriving Repr, DecidableEq

/-! ### The CPU state

All fields of the Python object.  `flush_if` / `flush_id` are assigned
`False` in `reset` and never read or written anywhere else, so they are
omitted. -/

/-- State of a `MIPS_CPU` instance. -/
structure MIPS_CPU where
  pc : Int
  registers : List Nat
  instruction_memory : List Nat
  data_memory : List (Nat × Nat)
  cycle : Nat
  IF_ID : IFID
  ID_EX : IDEX
  EX_MEM : EXMEM
  MEM_WB : MEMWB
  stall : Bool
  halted : Bool
  forward_a : Option Fwd
  forward_b : Option Fwd
  stall_info : Option StallInfo
  memory_warning : Option MemWarning
  control_hazard : Option ControlHazard
  flush_occurred : Bool
  if_id_was_held : Bool
  pipeline_history : List CycleSnapshot
  stall_history : List Nat
  forward_history : List FwdRecord
  flush_count : Nat
  seen_in_if : List (Int × Nat)
  seen_in_wb : List (Int × Nat)
deriving Repr, DecidableEq

/-- `MIPS_CPU.reset`: the state after `reset()` (instruction memory cleared). -/
def MIPS_CPU.resetState : MIPS_CPU :=
  { pc := 0, registers := [0, 0, 0, 0, 0, 0, 0, 0], instruction_memory := []
    data_memory := [], cycle := 0, IF_ID := empty_if_id, ID_EX := empty_id_ex
    EX_MEM := empty_ex_mem, MEM_WB := empty_mem_wb, stall := false
    halted := false, forward_a := none, forward_b := none, stall_info := none
    memory_warning := none, control_hazard := none, flush_occurred := false
    if_id_was_held := false, pipeline_history := [], stall_history := []
    forward_history := [], flush_count := 0, seen_in_if := [], seen_in_wb := [] }

/-- `MIPS_CPU.load_program`: copy the codes in, `reset()`, copy again. -/
def MIPS_CPU.load_program (machine_codes : List Nat) : MIPS_CPU :=
  { MIPS_CPU.resetState with instruction_memory := machine_codes }

/-! ### ALU helpers -/

/-- `MIPS_CPU._alu_add`: 16-bit addition with overflow handling. -/
def alu_add (a b : Int) : Int := pyAnd (a + b) 0xFFFF

/-- `MIPS_CPU._alu_sub`: 16-bit subtraction. -/
def alu_sub (a b : Int) : Int := pyAnd (a - b) 0xFFFF

/-- `MIPS_CPU._signed`: reinterpret a 16-bit value as signed. -/
def signed16 (val : Int) : Int := if pyAnd val 0x8000 ≠ 0 then val - 0x10000 else val

/-! ### Pipeline stages -/

/-- `MIPS_CPU._stage_wb`: write back into the register file. -/
def stage_wb (registers : List Nat) (mem_wb : MEMWB) : List Nat :=
  if ¬ mem_wb.valid then registers
  else if mem_wb.reg_write ∧ mem_wb.rd ≠ 0 then
    if mem_wb.mem_to_reg then registers.set mem_wb.rd (mask16 mem_wb.mem_data)
    else registers.set mem_wb.rd (mask16 mem_wb.alu_result)
  else registers

/-- `MIPS_CPU._stage_mem`: memory access; returns the new MEM/WB latch, the
updated data memory and the `memory_warning` record (reset to `None` at the
top of `step`, written only here). -/
def stage_mem (data_memory : List (Nat × Nat)) (ex_mem : EXMEM) :
    MEMWB × List (Nat × Nat) × Option MemWarning :=
  if ¬ ex_mem.valid then (empty_mem_wb, data_memory, none)
  else
    let result : MEMWB :=
      { empty_mem_wb with
        instruction := ex_mem.instruction, pc := ex_mem.pc
        valid := true, alu_result := ex_mem.alu_result, rd := ex_mem.rd
        reg_write := ex_mem.reg_write, mem_to_reg := ex_mem.mem_to_reg }
    let addr := mask16 ex_mem.alu_result
    if ex_mem.mem_read then
      let warn : Option MemWarning :=
        if dictHas data_memory addr then none
        else some { address := addr, instruction := ex_mem.instruction }
      ({ result with mem_data := (dictGet data_memory addr 0 : Int) }, data_memory, warn)
    else if ex_mem.mem_write then
      (result, dictSet data_memory addr (mask16 ex_mem.rt_val), none)
    else (result, data_memory, none)

/-- `MIPS_CPU._stage_ex`: execute with forwarding; returns the new EX/MEM
latch and the `forward_a` / `forward_b` records (reset to `None` at the top
of `step`, written only here). -/
def stage_ex (id_ex : IDEX) (ex_mem : EXMEM) (mem_wb : MEMWB) :
    EXMEM × Option Fwd × Option Fwd :=
  if ¬ id_ex.valid then (empty_ex_mem, none, none)
  else
    let result : EXMEM :=
      { empty_ex_mem with
        instruction := id_ex.instruction, pc := id_ex.pc
        valid := true, rd := id_ex.rd, reg_write := id_ex.reg_write
        mem_read := id_ex.mem_read, mem_write := id_ex.mem_write
        mem_to_reg := id_ex.mem_to_reg }
    -- Forwarding from EX/MEM
    let exFwdOk := ex_mem.valid ∧ ex_mem.reg_write ∧ ex_mem.rd ≠ 0
    let (rs_val1, fa1) :=
      if exFwdOk ∧ id_ex.rs = ex_mem.rd then
        (ex_mem.alu_result, some { source := FwdSource.EX_MEM, rd := ex_mem.rd
                                   value := ex_mem.alu_result })
      else (id_ex.rs_val, (none : Option Fwd))
    let (rt_val1, fb1) :=
      if exFwdOk ∧ id_ex.rt = ex_mem.rd then
        (ex_mem.alu_result, some { source := FwdSource.EX_MEM, rd := ex_mem.rd
                                   value := ex_mem.alu_result })
      else (id_ex.rt_val, (none : Option Fwd))
    -- Forwarding from MEM/WB (only if the slot was not already forwarded)
    let wbFwdOk := mem_wb.valid ∧ mem_wb.reg_write ∧ mem_wb.rd ≠ 0
    let write_data := if mem_wb.mem_to_reg then mem_wb.mem_data else mem_wb.alu_result
    let (rs_val, fa) :=
      if wbFwdOk ∧ id_ex.rs = mem_wb.rd ∧ fa1 = none then
        (write_data, some { source := FwdSource.MEM_WB, rd := mem_wb.rd
                            value := write_data })
      else (rs_val1, fa1)
    let (rt_val, fb) :=
      if wbFwdOk ∧ id_ex.rt = mem_wb.rd ∧ fb1 = none then
        (write_data, some { source := FwdSource.MEM_WB, rd := mem_wb.rd
                            value := write_data })
      else (rt_val1, fb1)
    let result := { result with rt_val := rt_val }
    -- ALU operation (the if/elif chain of the source, in order; the final
    -- elif arm for 'LW'/'SW'/'ADD' is unreachable because no decode path
    -- assigns those alu_op strings that is not already matched above)
    let imm := id_ex.imm
    let alu_result : Int :=
      if id_ex.alu_op = "ADD" then alu_add rs_val rt_val
      else if id_ex.alu_op = "SUB" then alu_sub rs_val rt_val
      else if id_ex.alu_op = "AND" then pyAnd rs_val rt_val
      else if id_ex.alu_op = "OR" then pyOr rs_val rt_val
      else if id_ex.alu_op = "SLT" then
        if signed16 rs_val < signed16 rt_val then 1 else 0
      else if id_ex.alu_op = "ADDI" then alu_add rs_val imm
      else if id_ex.alu_op = "SUBI" then alu_sub rs_val imm
      else if id_ex.alu_op = "SLTI" then
        if signed16 rs_val < imm then 1 else 0
      else if id_ex.alu_op = "ANDI" then pyAnd rs_val (pyAnd imm 0x3F)
      else if id_ex.alu_op = "JAL" then id_ex.rs_val
      else if id_ex.alu_op = "LW" ∨ id_ex.alu_op = "SW" then alu_add rs_val imm
      else 0
    ({ result with alu_result := alu_result }, fa, fb)

/-- Stall case 1 of `_stage_id` (LW in EX stage, applies to all
instructions): the flag it sets and the `stall_info` it assigns. -/
def id_hazard_check1 (result : IDEX) (old_id_ex : IDEX) : Bool × Option StallInfo :=
  if old_id_ex.valid ∧ old_id_ex.mem_read then
    let ld_rd := old_id_ex.rd
    if result.rs = ld_rd ∧ ld_rd ≠ 0 then
      (true, some (StallInfo.loadUse ld_rd true))
    else if result.rt = ld_rd ∧ ld_rd ≠ 0 ∧ ¬ result.mem_write then
      (true, some (StallInfo.loadUse ld_rd false))
    else (false, none)
  else (false, none)

/-- Stall case 2 of `_stage_id` (LW in MEM stage, only for branch/jump). -/
def id_hazard_check2 (result : IDEX) (old_ex_mem : EXMEM) : Bool × Option StallInfo :=
  if old_ex_mem.valid ∧ old_ex_mem.mem_to_reg then
    let ld_rd := old_ex_mem.rd
    if (result.branch ∨ result.jump) ∧ ld_rd ≠ 0 ∧
        (result.rs = ld_rd ∨ result.rt = ld_rd) then
      (true, some (StallInfo.loadUseBranch ld_rd))
    else (false, none)
  else (false, none)

/-- Common tail of `MIPS_CPU._stage_id`: the two load-use hazard checks at
the bottom of the function (reached by every path that does not return
early inside the JR arm).  The case-2 `stall_info` assignment overwrites
case 1's. -/
def id_hazard_tail (result : IDEX) (branch_taken : Bool) (jump_target : Option Int)
    (old_id_ex : IDEX) (old_ex_mem : EXMEM) :
    IDEX × Bool × Option Int × Bool × Option StallInfo :=
  let c1 := id_hazard_check1 result old_id_ex
  let c2 := id_hazard_check2 result old_ex_mem
  (result, branch_taken, jump_target, c1.1 || c2.1,
   if c2.2.isSome then c2.2 else c1.2)

/-- R-type arm of `_stage_id` (opcode 0000), including the JR forwarding,
its two early-return stall checks, and the fall-through to the common
hazard tail. -/
def stage_id_rtype (registers : List Nat) (base : IDEX) (code : Nat)
    (old_id_ex : IDEX) (old_ex_mem : EXMEM) (old_mem_wb : MEMWB)
    (new_ex_mem : EXMEM) : IDEX × Bool × Option Int × Bool × Option StallInfo :=
  let rs := (code >>> 9) &&& 0x7
  let rt := (code >>> 6) &&& 0x7
  let rd := (code >>> 3) &&& 0x7
  let funct := code &&& 0x7
  let r : IDEX :=
    { base with
      rs := rs, rt := rt, rd := rd, funct := funct
      rs_val := (registers.getD rs 0 : Int)
      rt_val := (registers.getD rt 0 : Int) }
  if funct = 0b101 then
    -- JR
    let r := { r with jump := true, alu_op := "JR" }
    if old_id_ex.valid ∧ old_id_ex.mem_read ∧ old_id_ex.rd = rs ∧ rs ≠ 0 then
      (r, false, none, true, some (StallInfo.loadUseJR rs))
    else
      let v0 : Int := (registers.getD rs 0 : Int)
      let v1 :=
        if old_mem_wb.valid ∧ old_mem_wb.reg_write ∧ old_mem_wb.rd ≠ 0 ∧
            rs = old_mem_wb.rd then
          if old_mem_wb.mem_to_reg then old_mem_wb.mem_data
          else old_mem_wb.alu_result
        else v0
      let v2 :=
        if old_ex_mem.valid ∧ old_ex_mem.reg_write ∧ old_ex_mem.rd ≠ 0 ∧
            rs = old_ex_mem.rd then old_ex_mem.alu_result
        else v1
      let v3 :=
        if new_ex_mem.valid ∧ new_ex_mem.reg_write ∧ new_ex_mem.rd ≠ 0 ∧
            rs = new_ex_mem.rd then new_ex_mem.alu_result
        else v2
      if old_id_ex.valid ∧ old_id_ex.reg_write ∧ old_id_ex.rd = rs ∧ rs ≠ 0 then
        (r, false, none, true, some (StallInfo.dataHazardJR rs))
      else
        id_hazard_tail r false (some v3) old_id_ex old_ex_mem
  else if funct < 5 then
    let r := { r with
               reg_write := true
               alu_op := ["ADD", "SUB", "AND", "OR", "SLT"].getD funct "NOP" }
    id_hazard_tail r false none old_id_ex old_ex_mem
  else
    -- Invalid R-Type funct (6 or 7) -> Treat as NOP
    id_hazard_tail r false none old_id_ex old_ex_mem

/-- J-type arm of `_stage_id` (opcodes 1001/1010). -/
def stage_id_jtype (base : IDEX) (code : Nat) (old_id_ex : IDEX)
    (old_ex_mem : EXMEM) : IDEX × Bool × Option Int × Bool × Option StallInfo :=
  let address := code &&& 0xFFF
  let r := { base with address := address, jump := true }
  if base.opcode = 0b1001 then
    let r := { r with alu_op := "JUMP" }
    id_hazard_tail r false (some (address : Int)) old_id_ex old_ex_mem
  else
    let r :=
      { r with
        alu_op := "JAL", reg_write := true, rd := 7
        rs_val := base.pc + 1 }
    id_hazard_tail r false (some (address : Int)) old_id_ex old_ex_mem

/-- Control-signal dispatch of the I-type arm of `_stage_id`: the
`elif` chain on the opcode, producing the decoded latch, `branch_taken`
and the branch target. -/
def itype_dispatch (r : IDEX) (opcode : Nat) (pc : Int) (imm : Int)
    (rs_val_fwd rt_val_fwd : Int) : IDEX × Bool × Option Int :=
  if opcode = 0b0001 then -- LW
    ({ r with
        mem_read := true, mem_to_reg := true, reg_write := true
        alu_op := "ADDI" }, false, (none : Option Int))
  else if opcode = 0b0010 then -- SW
    ({ r with mem_write := true, alu_op := "ADDI" }, false, none)
  else if opcode = 0b0011 then -- ADDI
    ({ r with reg_write := true, alu_op := "ADDI" }, false, none)
  else if opcode = 0b0100 then -- SUBI
    ({ r with reg_write := true, alu_op := "SUBI" }, false, none)
  else if opcode = 0b0101 then -- SLTI
    ({ r with reg_write := true, alu_op := "SLTI" }, false, none)
  else if opcode = 0b0110 then -- BEQ
    if rs_val_fwd = rt_val_fwd then
      ({ r with branch := true, alu_op := "BEQ" }, true, some (pc + 1 + imm))
    else ({ r with branch := true, alu_op := "BEQ" }, false, none)
  else if opcode = 0b0111 then -- BNQ
    if rs_val_fwd ≠ rt_val_fwd then
      ({ r with branch := true, alu_op := "BNQ" }, true, some (pc + 1 + imm))
    else ({ r with branch := true, alu_op := "BNQ" }, false, none)
  else if opcode = 0b1000 then -- ANDI
    ({ r with reg_write := true, alu_op := "ANDI" }, false, none)
  else (r, false, none)

/-- Branch-comparison forwarding chain of the I-type arm of `_stage_id`
(MEM/WB, then EX/MEM, then the same-cycle EX result, highest priority
last): the pair of forwarded comparison values. -/
def itype_fwd (rs rt : Nat) (rs0 rt0 : Int) (old_ex_mem : EXMEM)
    (old_mem_wb : MEMWB) (new_ex_mem : EXMEM) : Int × Int :=
  let fwd1 :=
    if old_mem_wb.valid ∧ old_mem_wb.reg_write ∧ old_mem_wb.rd ≠ 0 then
      let wb_data := if old_mem_wb.mem_to_reg then old_mem_wb.mem_data
                     else old_mem_wb.alu_result
      ((if rs = old_mem_wb.rd then wb_data else rs0),
       (if rt = old_mem_wb.rd then wb_data else rt0))
    else (rs0, rt0)
  let fwd2 :=
    if old_ex_mem.valid ∧ old_ex_mem.reg_write ∧ old_ex_mem.rd ≠ 0 then
      ((if rs = old_ex_mem.rd then old_ex_mem.alu_result else fwd1.1),
       (if rt = old_ex_mem.rd then old_ex_mem.alu_result else fwd1.2))
    else fwd1
  if new_ex_mem.valid ∧ new_ex_mem.reg_write ∧ new_ex_mem.rd ≠ 0 then
    ((if rs = new_ex_mem.rd then new_ex_mem.alu_result else fwd2.1),
     (if rt = new_ex_mem.rd then new_ex_mem.alu_result else fwd2.2))
  else fwd2

/-- I-type arm of `_stage_id` (the catch-all `else`). -/
def stage_id_itype (registers : List Nat) (base : IDEX) (code : Nat)
    (old_id_ex : IDEX) (old_ex_mem : EXMEM) (old_mem_wb : MEMWB)
    (new_ex_mem : EXMEM) : IDEX × Bool × Option Int × Bool × Option StallInfo :=
  let rs := (code >>> 9) &&& 0x7
  let rt := (code >>> 6) &&& 0x7
  let imm0 := code &&& 0x3F
  let imm : Int := if imm0 &&& 0x20 ≠ 0 then (imm0 : Int) - 64 else (imm0 : Int)
  let r : IDEX :=
    { base with
      rs := rs, rt := rt, rd := rt, imm := imm
      rs_val := (registers.getD rs 0 : Int)
      rt_val := (registers.getD rt 0 : Int) }
  let fwd := itype_fwd rs rt (registers.getD rs 0 : Int)
    (registers.getD rt 0 : Int) old_ex_mem old_mem_wb new_ex_mem
  let dispatch := itype_dispatch r base.opcode base.pc imm fwd.1 fwd.2
  id_hazard_tail dispatch.1 dispatch.2.1 dispatch.2.2 old_id_ex old_ex_mem

/-- `MIPS_CPU._stage_id`: decode, branch/jump resolution and hazard
detection.  `registers` is the register file *after* this cycle's
writeback (the source mutates `self.registers` in `_stage_wb` before
calling `_stage_id`); the latches are the old (uncommitted) ones and
`new_ex_mem` is the EX result computed this same cycle.  Returns the new
ID/EX latch, `branch_taken`, the jump target, the stall flag set by this
stage and the `stall_info` record. -/
def stage_id (registers : List Nat) (if_id : IFID) (old_id_ex : IDEX)
    (old_ex_mem : EXMEM) (old_mem_wb : MEMWB) (new_ex_mem : EXMEM) :
    IDEX × Bool × Option Int × Bool × Option StallInfo :=
  if ¬ if_id.valid then (empty_id_ex, false, none, false, none)
  else
    match if_id.instruction with
    | none => (empty_id_ex, false, none, false, none)
    | some code =>
      let opcode := (code >>> 12) &&& 0xF
      let base : IDEX :=
        { empty_id_ex with
          instruction := some code, pc := if_id.pc
          valid := true, opcode := opcode }
      if opcode = 0b0000 then
        stage_id_rtype registers base code old_id_ex old_ex_mem old_mem_wb new_ex_mem
      else if opcode = 0b1001 ∨ opcode = 0b1010 then
        stage_id_jtype base code old_id_ex old_ex_mem
      else
        stage_id_itype registers base code old_id_ex old_ex_mem old_mem_wb new_ex_mem

/-- `MIPS_CPU._stage_if`: fetch; returns the new IF/ID latch and the updated
PC, or `none` on an uncaught `IndexError` (negative PC beyond the start). -/
def stage_if (pc : Int) (instruction_memory : List Nat) : Option (IFID × Int) :=
  if pc < (instruction_memory.length : Int) then
    match pyIndex instruction_memory pc with
    | some w => some ({ instruction := some w, pc := pc, valid := true }, pc + 1)
    | none => none
  else some (empty_if_id, pc)

/-! ### The step function -/

/-- Body of `MIPS_CPU.step` after a successful fetch: `fetched_IF_ID` and
`pc_after_fetch` are the result of `_stage_if`.  The order of the local
bindings is the execution order of the source: WB first (mutating the
register file before decode reads it), then MEM, EX, ID (receiving the
same-cycle EX result), then control hazard handling, stall handling, latch
commit, and the per-cycle history bookkeeping. -/
def MIPS_CPU.stepCore (s : MIPS_CPU) (fetched_IF_ID : IFID)
    (pc_after_fetch : Int) : MIPS_CPU × Bool :=
  let old_IF_ID := s.IF_ID
  let old_MEM_WB := s.MEM_WB
  let registers1 := stage_wb s.registers s.MEM_WB
  let mout := stage_mem s.data_memory s.EX_MEM
  let new_MEM_WB := mout.1
  let data_memory1 := mout.2.1
  let memory_warning1 := mout.2.2
  let eout := stage_ex s.ID_EX s.EX_MEM s.MEM_WB
  let new_EX_MEM := eout.1
  let forward_a1 := eout.2.1
  let forward_b1 := eout.2.2
  let dout := stage_id registers1 s.IF_ID s.ID_EX s.EX_MEM s.MEM_WB new_EX_MEM
  let new_ID_EX := dout.1
  let branch_taken := dout.2.1
  let jump_target := dout.2.2.1
  let id_stall := dout.2.2.2.1
  let stall_info1 := dout.2.2.2.2
  let id_stage_instr_for_timeline :=
    if new_ID_EX.valid then new_ID_EX.instruction else none
  -- Control hazard (branch/jump) handling
  let takes := branch_taken || jump_target.isSome
  let control_hazard1 : Option ControlHazard :=
    if takes then
      some { isBranch := branch_taken, flushedInstr := fetched_IF_ID.instruction,
             targetAddress := jump_target }
    else none
  let flush_count1 := if takes then s.flush_count + 1 else s.flush_count
  let new_IF_ID1 := if takes then empty_if_id else fetched_IF_ID
  let pc1 :=
    if takes then
      match jump_target with
      | some t => t
      | none => pc_after_fetch
    else pc_after_fetch
  -- Stall (load-use hazard) handling; self.stall is only ever set by
  -- _stage_id, so its value at line 218 of the source is the disjunction
  -- of the incoming flag and this cycle's decode
  let stall_occurred := s.stall || id_stall
  let new_ID_EX1 := if stall_occurred then empty_id_ex else new_ID_EX
  let new_IF_ID2 := if stall_occurred then old_IF_ID else new_IF_ID1
  let pc2 := if stall_occurred then old_IF_ID.pc + 1 else pc1
  let cycle1 := s.cycle + 1
  -- Pipeline history: IF entry, deduplicated by the (pc, word) set
  let (if_entry, seen_in_if1) :=
    match new_IF_ID2.instruction with
    | some w =>
      if (new_IF_ID2.pc, w) ∈ s.seen_in_if then ((none, none), s.seen_in_if)
      else (((some w : Option Nat), (some new_IF_ID2.pc : Option Int)),
            setAdd s.seen_in_if (new_IF_ID2.pc, w))
    | none => ((none, none), s.seen_in_if)
  -- ID entry
  let (id_entry_instr, id_entry_pc) :=
    if stall_occurred then (old_IF_ID.instruction, old_IF_ID.pc)
    else if id_stage_instr_for_timeline.isSome then
      (id_stage_instr_for_timeline, old_IF_ID.pc)
    else (new_ID_EX1.instruction, new_ID_EX1.pc)
  -- WB entry, deduplicated by the (pc, word) set
  let cur_wb_instr := if old_MEM_WB.valid then old_MEM_WB.instruction else none
  let (wb_entry, seen_in_wb1) :=
    match cur_wb_instr with
    | some w =>
      if (old_MEM_WB.pc, w) ∈ s.seen_in_wb then ((none, none), s.seen_in_wb)
      else (((some w : Option Nat), (some old_MEM_WB.pc : Option Int)),
            setAdd s.seen_in_wb (old_MEM_WB.pc, w))
    | none => ((none, none), s.seen_in_wb)
  let snapshot : CycleSnapshot :=
    { cycle := cycle1
      ifInstr := if_entry.1, ifPc := if_entry.2
      idInstr := id_entry_instr, idPc := id_entry_pc
      exInstr := new_EX_MEM.instruction, exPc := new_EX_MEM.pc
      memInstr := new_MEM_WB.instruction, memPc := new_MEM_WB.pc
      wbInstr := wb_entry.1, wbPc := wb_entry.2 }
  let stall_history1 :=
    if stall_occurred || (¬ new_ID_EX1.valid ∧ old_IF_ID.valid) then
      s.stall_history ++ [cycle1]
    else s.stall_history
  let forward_history1 :=
    if forward_a1.isSome || forward_b1.isSome then
      s.forward_history ++ [{ cycle := cycle1, forward_a := forward_a1,
                              forward_b := forward_b1 : FwdRecord }]
    else s.forward_history
  let halted1 :=
    ¬ new_IF_ID2.valid ∧ ¬ new_ID_EX1.valid ∧ ¬ new_EX_MEM.valid ∧
    ¬ new_MEM_WB.valid ∧ (s.instruction_memory.length : Int) ≤ pc2
  ({ s with
      pc := pc2
      registers := registers1
      data_memory := data_memory1
      cycle := cycle1
      IF_ID := new_IF_ID2
      ID_EX := new_ID_EX1
      EX_MEM := new_EX_MEM
      MEM_WB := new_MEM_WB
      stall := false
      halted := halted1
      forward_a := forward_a1
      forward_b := forward_b1
      stall_info := stall_info1
      memory_warning := memory_warning1
      control_hazard := control_hazard1
      flush_occurred := takes
      if_id_was_held := stall_occurred
      pipeline_history := s.pipeline_history ++ [snapshot]
      stall_history := stall_history1
      forward_history := forward_history1
      flush_count := flush_count1
      seen_in_if := seen_in_if1
      seen_in_wb := seen_in_wb1 }, !halted1)

/-- `MIPS_CPU.step`: execute one clock cycle.  Returns the next state and
the running flag, or `none` when the fetch raises an uncaught
`IndexError`. -/
def MIPS_CPU.step (s : MIPS_CPU) : Option (MIPS_CPU × Bool) :=
  if s.halted then some (s, false)
  else
    match stage_if s.pc s.instruction_memory with
    | none => none
    | some (fetched_IF_ID, pc_after_fetch) =>
      some (s.stepCore fetched_IF_ID pc_after_fetch)

/-- Iterate `step` `n` times, ignoring the running flag (the host keeps
calling `step()`); `none` propagates an uncaught exception. -/
def MIPS_CPU.stepN (s : MIPS_CPU) : Nat → Option MIPS_CPU
  | 0 => some s
  | n + 1 => (s.step).bind fun p => p.1.stepN n

/-! ### State snapshot (`get_state`) and serialization (`to_json` / `from_json`)

`get_state` returns a dict whose derived entries (`disasm` strings on the
latch copies, the float metrics `cpi`, `stall_rate`, `forward_rate`) are
fixed functions of the integer fields kept here, so equality of these
snapshots is equality of the source snapshots. -/

/-- Raw inputs of the `performance` sub-dict of `get_state`. -/
structure Performance where
  cycles : Nat
  instructions : Nat
  stall_cycles : Nat
  forward_cycles : Nat
  flush_count : Nat
deriving Repr, DecidableEq

/-- The dict returned by `MIPS_CPU.get_state`. -/
structure StateSnapshot where
  pc : Int
  cycle : Nat
  registers : List Nat
  data_memory : List (Nat × Nat)
  instruction_memory : List Nat
  IF_ID : IFID
  ID_EX : IDEX
  EX_MEM : EXMEM
  MEM_WB : MEMWB
  halted : Bool
  forward_a : Option Fwd
  forward_b : Option Fwd
  stall_info : Option StallInfo
  memory_warning : Option MemWarning
  control_hazard : Option ControlHazard
  flush_occurred : Bool
  pipeline_history : List CycleSnapshot
  stall_history : List Nat
  forward_history : List FwdRecord
  is_stalling : Bool
  performance : Performance
deriving Repr, DecidableEq

/-- `MIPS_CPU.get_state`. -/
def MIPS_CPU.get_state (s : MIPS_CPU) : StateSnapshot :=
  { pc := s.pc
    cycle := s.cycle
    registers := s.registers
    data_memory := s.data_memory
    instruction_memory := s.instruction_memory
    IF_ID := s.IF_ID
    ID_EX := s.ID_EX
    EX_MEM := s.EX_MEM
    MEM_WB := s.MEM_WB
    halted := s.halted
    forward_a := s.forward_a
    forward_b := s.forward_b
    stall_info := s.stall_info
    memory_warning := s.memory_warning
    control_hazard := s.control_hazard
    flush_occurred := s.flush_occurred
    pipeline_history := s.pipeline_history
    stall_history := s.stall_history
    forward_history := s.forward_history
    is_stalling := s.stall
    performance :=
      { cycles := s.cycle
        instructions := s.seen_in_wb.length
        stall_cycles := s.stall_history.length
        forward_cycles := s.forward_history.length
        flush_count := s.flush_count } }

/-- The fields written by `MIPS_CPU.to_json` (the persisted state layout). -/
structure SerializedState where
  pc : Int
  cycle : Nat
  registers : List Nat
  data_memory : List (Nat × Nat)
  instruction_memory : List Nat
  IF_ID : IFID
  ID_EX : IDEX
  EX_MEM : EXMEM
  MEM_WB : MEMWB
  halted : Bool
  stall : Bool
  pipeline_history : List CycleSnapshot
  stall_history : List Nat
  forward_history : List FwdRecord
  flush_count : Nat
  seen_in_if : List (Int × Nat)
  seen_in_wb : List (Int × Nat)
deriving Repr, DecidableEq

/-- `MIPS_CPU.to_json`. -/
def MIPS_CPU.to_json (s : MIPS_CPU) : SerializedState :=
  { pc := s.pc
    cycle := s.cycle
    registers := s.registers
    data_memory := s.data_memory
    instruction_memory := s.instruction_memory
    IF_ID := s.IF_ID
    ID_EX := s.ID_EX
    EX_MEM := s.EX_MEM
    MEM_WB := s.MEM_WB
    halted := s.halted
    stall := s.stall
    pipeline_history := s.pipeline_history
    stall_history := s.stall_history
    forward_history := s.forward_history
    flush_count := s.flush_count
    seen_in_if := s.seen_in_if
    seen_in_wb := s.seen_in_wb }

/-- `MIPS_CPU.from_json`: build `cls()` (a reset CPU) and overwrite the
serialized fields; every per-cycle observability record keeps its reset
value. -/
def MIPS_CPU.from_json (j : SerializedState) : MIPS_CPU :=
  { MIPS_CPU.resetState with
    pc := j.pc
    cycle := j.cycle
    registers := j.registers
    data_memory := j.data_memory
    instruction_memory := j.instruction_memory
    IF_ID := j.IF_ID
    ID_EX := j.ID_EX
    EX_MEM := j.EX_MEM
    MEM_WB := j.MEM_WB
    halted := j.halted
    stall := j.stall
    pipeline_history := j.pipeline_history
    stall_history := j.stall_history
    forward_history := j.forward_history
    flush_count := j.flush_count
    seen_in_if := j.seen_in_if
    seen_in_wb := j.seen_in_wb }

/-! ### Reachability and derived step observables -/

/-- States reachable through the public interface: `load_program` on a fresh
or reset CPU, followed by completed `step()` calls. -/
inductive MIPS_CPU.Reachable : MIPS_CPU → Prop where
  | load (codes : List Nat) : MIPS_CPU.Reachable (MIPS_CPU.load_program codes)
  | step (s s' : MIPS_CPU) (b : Bool) (hs : MIPS_CPU.Reachable s)
      (h : s.step = some (s', b)) : MIPS_CPU.Reachable s'

/-- A state whose per-cycle observability records are all cleared whenever
the CPU is halted (true of every reachable state; a halting cycle drains
the pipeline, and each record is only set on a path that keeps some latch
valid). -/
def MIPS_CPU.HaltClean (s : MIPS_CPU) : Prop :=
  s.halted = true →
    s.forward_a = none ∧ s.forward_b = none ∧ s.stall_info = none ∧
    s.memory_warning = none ∧ s.control_hazard = none ∧ s.flush_occurred = false

/-- The value of `self.stall` tested at the stall-handling point of `step`
(the hazard condition of the current cycle). -/
def MIPS_CPU.stall_signal (s : MIPS_CPU) : Bool :=
  let registers1 := stage_wb s.registers s.MEM_WB
  let new_EX_MEM := (stage_ex s.ID_EX s.EX_MEM s.MEM_WB).1
  let dout := stage_id registers1 s.IF_ID s.ID_EX s.EX_MEM s.MEM_WB new_EX_MEM
  s.stall || dout.2.2.2.1

/-- Whether this cycle's decode resolves a taken branch or a jump (the
condition guarding the flush block of `step`). -/
def MIPS_CPU.taken_resolution (s : MIPS_CPU) : Bool :=
  let registers1 := stage_wb s.registers s.MEM_WB
  let new_EX_MEM := (stage_ex s.ID_EX s.EX_MEM s.MEM_WB).1
  let dout := stage_id registers1 s.IF_ID s.ID_EX s.EX_MEM s.MEM_WB new_EX_MEM
  dout.2.1 || dout.2.2.1.isSome

/-- A mid-program state: a loaded program together with a register file and
data memory contents, as restored by `from_json` of a session state (the
host persists and restores CPUs between steps). -/
def MIPS_CPU.loadedWith (codes : List Nat) (regs : List Nat)
    (mem : List (Nat × Nat)) : MIPS_CPU :=
  { MIPS_CPU.load_program codes with registers := regs, data_memory := mem }

/-! ### Reference (unpipelined) semantics

Written from the spec's ISA table (§3), *not* from the simulator code: the
forwarding claims compare the pipeline's architectural results against the
result of executing the instructions one at a time.  Only the register-file
and data-memory effect is needed (control transfers move only the PC). -/

/-- Sign-extend a 6-bit field, as the spec's table prescribes. -/
def specSext6 (imm : Nat) : Int := if 32 ≤ imm % 64 then (imm % 64 : Int) - 64 else (imm % 64 : Int)

/-- Reference effect of a single instruction word on registers and data
memory, following the spec table: `rd ← rs op rt`, `rt ← rs op imm`,
`rt ← mem[rs+imm]`, `mem[rs+imm] ← rt`; arithmetic wraps modulo 2^16,
SLT/SLTI compare as 16-bit two's complement, ANDI zero-extends, and writes
to register 0 are discarded. -/
def specExec1 (regs : List Nat) (mem : List (Nat × Nat)) (w : Nat) :
    List Nat × List (Nat × Nat) :=
  let opcode := (w >>> 12) &&& 0xF
  let rs := (w >>> 9) &&& 0x7
  let rt := (w >>> 6) &&& 0x7
  let a : Int := (regs.getD rs 0 : Int)
  let b : Int := (regs.getD rt 0 : Int)
  let imm : Int := specSext6 (w &&& 0x3F)
  let sgn : Int → Int := fun v => if 32768 ≤ v then v - 65536 else v
  let write : Nat → Int → List Nat := fun r v =>
    if r = 0 then regs else regs.set r ((v % 65536).toNat)
  if opcode = 0 then
    let rd := (w >>> 3) &&& 0x7
    let funct := w &&& 0x7
    if funct = 0 then (write rd (a + b), mem)
    else if funct = 1 then (write rd (a - b), mem)
    else if funct = 2 then (write rd (Int.land a b), mem)
    else if funct = 3 then (write rd (Int.lor a b), mem)
    else if funct = 4 then (write rd (if sgn a < sgn b then 1 else 0), mem)
    else (regs, mem)
  else if opcode = 1 then
    (write rt (dictGet mem ((a + imm) % 65536).toNat 0 : Int), mem)
  else if opcode = 2 then
    (regs, dictSet mem ((a + imm) % 65536).toNat (b % 65536).toNat)
  else if opcode = 3 then (write rt (a + imm), mem)
  else if opcode = 4 then (write rt (a - imm), mem)
  else if opcode = 5 then (write rt (if sgn a < imm then 1 else 0), mem)
  else if opcode = 8 then (write rt (Int.land a (Int.land imm 0x3F)), mem)
  else (regs, mem)

/-! ### Assembler: Python string primitives

The assembler is embedded over `List Char`.  Only the string forms that the
source manipulates are modelled: ASCII case mapping, whitespace stripping,
single-character splitting, and the decimal/hex grammars of Python `str`
and `int` (without the underscore digit separators, which no claim
touches). -/

/-- Python whitespace (the characters `str.strip` and `str.split` treat as
separators that can occur in assembly source). -/
def isPySpace (c : Char) : Bool :=
  c = ' ' || c = '\t' || c = '\n' || c = '\r' || c = '\x0b' || c = '\x0c'

/-- ASCII lowercasing of one character. -/
def lowerChar (c : Char) : Char :=
  if 'A' ≤ c ∧ c ≤ 'Z' then Char.ofNat (c.toNat + 32) else c

/-- ASCII uppercasing of one character. -/
def upperChar (c : Char) : Char :=
  if 'a' ≤ c ∧ c ≤ 'z' then Char.ofNat (c.toNat - 32) else c

/-- Python `s.lower()`. -/
def pyLower (l : List Char) : List Char := l.map lowerChar

/-- Python `s.upper()`. -/
def pyUpper (l : List Char) : List Char := l.map upperChar

/-- Python `s.strip()`. -/
def pyStrip (l : List Char) : List Char :=
  ((l.dropWhile isPySpace).reverse.dropWhile isPySpace).reverse

/-- Python `s.split(c)`: split at every occurrence, keeping empty pieces. -/
def splitOnChar (c : Char) : List Char → List (List Char)
  | [] => [[]]
  | x :: xs =>
    match splitOnChar c xs with
    | [] => [[]]
    | y :: ys => if x = c then [] :: y :: ys else (x :: y) :: ys

/-- Cut a line at the first occurrence of `//` (Python
`line[:line.index('//')]` guarded by `'//' in line`). -/
def cutDoubleSlash : List Char → List Char
  | [] => []
  | [c] => [c]
  | a :: b :: rest =>
    if a = '/' ∧ b = '/' then [] else a :: cutDoubleSlash (b :: rest)

/-- Decimal digit test. -/
def isDigitChar (c : Char) : Bool := '0' ≤ c ∧ c ≤ '9'

/-- Fold a nonempty all-digit string into a number (the core of Python
`int(s)`). -/
def parseDigitsFrom (acc : Nat) : List Char → Option Nat
  | [] => some acc
  | c :: cs => if isDigitChar c then parseDigitsFrom (acc * 10 + (c.toNat - 48)) cs
               else none

/-- Parse a nonempty digit string. -/
def parseDigits (l : List Char) : Option Nat :=
  if l = [] then none else parseDigitsFrom 0 l

/-- Python `int(s)` for a stripped string: optional sign, then digits. -/
def pyIntDec (l : List Char) : Option Int :=
  match l with
  | [] => none
  | c :: rest =>
    if c = '-' then (parseDigits rest).map fun n => -(n : Int)
    else if c = '+' then (parseDigits rest).map fun n => (n : Int)
    else (parseDigits (c :: rest)).map fun n => (n : Int)

/-- Hexadecimal digit value. -/
def hexDigitVal (c : Char) : Option Nat :=
  if '0' ≤ c ∧ c ≤ '9' then some (c.toNat - 48)
  else if 'a' ≤ c ∧ c ≤ 'f' then some (c.toNat - 87)
  else if 'A' ≤ c ∧ c ≤ 'F' then some (c.toNat - 55)
  else none

/-- Fold a nonempty all-hex-digit string. -/
def parseHexFrom (acc : Nat) : List Char → Option Nat
  | [] => some acc
  | c :: cs =>
    match hexDigitVal c with
    | some d => parseHexFrom (acc * 16 + d) cs
    | none => none

/-- Parse a nonempty hex-digit string. -/
def parseHex (l : List Char) : Option Nat :=
  if l = [] then none else parseHexFrom 0 l

/-- Python `int(s, 16)` on the strings the assembler meets: optional
`0x`/`0X` prefix, then hex digits (machine-code strings and numeric
operands; a sign never reaches this call on a path a claim touches). -/
def pyIntHex (l : List Char) : Option Nat :=
  let body :=
    if ("0x".toList.isPrefixOf l ∨ "0X".toList.isPrefixOf l) then l.drop 2 else l
  parseHex body

/-- Decimal digits, with structural fuel (any `fuel > n` computes the
digits; `natStr` passes `n + 1`). -/
def natStrGo (fuel n : Nat) : List Char :=
  match fuel with
  | 0 => []
  | fuel + 1 =>
    if n < 10 then [Char.ofNat (48 + n)]
    else natStrGo fuel (n / 10) ++ [Char.ofNat (48 + n % 10)]

/-- Decimal digits of a natural number (Python `str`). -/
def natStr (n : Nat) : List Char := natStrGo (n + 1) n

/-- Python `str` of an int. -/
def intStr (i : Int) : List Char :=
  if i < 0 then '-' :: natStr (-i).toNat else natStr i.toNat

/-- Uppercase hex digits, with structural fuel. -/
def natHexStrGo (fuel n : Nat) : List Char :=
  match fuel with
  | 0 => []
  | fuel + 1 =>
    if n < 16 then [Char.ofNat (if n < 10 then 48 + n else 55 + n)]
    else natHexStrGo fuel (n / 16) ++
      [Char.ofNat (if n % 16 < 10 then 48 + n % 16 else 55 + n % 16)]

/-- Uppercase hex digits of a natural number. -/
def natHexStr (n : Nat) : List Char := natHexStrGo (n + 1) n

/-- Python `format(n, '04X')`: uppercase hex, zero-padded to width 4. -/
def format04X (n : Nat) : List Char :=
  let digits := natHexStr n
  List.replicate (4 - digits.length) '0' ++ digits

/-! ### Assembler: tables, tokenizer, operand parsers, encoder -/

/-- Association-list lookup on string keys (Python dict lookup). -/
def lookupStr (tbl : List (List Char × Nat)) (k : List Char) : Option Nat :=
  match tbl with
  | [] => none
  | (k1, v1) :: rest => if k1 = k then some v1 else lookupStr rest k

/-- Reverse lookup (the `{v: k for k, v in d.items()}` dicts of
`disassemble`; the tables are injective so the first hit is the dict
entry). -/
def lookupVal (tbl : List (List Char × Nat)) (v : Nat) : Option (List Char) :=
  match tbl with
  | [] => none
  | (k1, v1) :: rest => if v1 = v then some k1 else lookupVal rest v

/-- The `REGISTERS` table. -/
def REGISTERS : List (List Char × Nat) :=
  [("$r0".toList, 0), ("$r1".toList, 1), ("$r2".toList, 2), ("$r3".toList, 3),
   ("$r4".toList, 4), ("$r5".toList, 5), ("$r6".toList, 6), ("$r7".toList, 7),
   ("r0".toList, 0), ("r1".toList, 1), ("r2".toList, 2), ("r3".toList, 3),
   ("r4".toList, 4), ("r5".toList, 5), ("r6".toList, 6), ("r7".toList, 7)]

/-- The `R_TYPE_FUNCT` table. -/
def R_TYPE_FUNCT : List (List Char × Nat) :=
  [("ADD".toList, 0), ("SUB".toList, 1), ("AND".toList, 2),
   ("OR".toList, 3), ("SLT".toList, 4), ("JR".toList, 5)]

/-- The `I_TYPE_OPCODES` table. -/
def I_TYPE_OPCODES : List (List Char × Nat) :=
  [("LW".toList, 1), ("SW".toList, 2), ("ADDI".toList, 3), ("SUBI".toList, 4),
   ("SLTI".toList, 5), ("BEQ".toList, 6), ("BNQ".toList, 7), ("ANDI".toList, 8)]

/-- The `J_TYPE_OPCODES` table. -/
def J_TYPE_OPCODES : List (List Char × Nat) :=
  [("JUMP".toList, 9), ("JAL".toList, 10)]

/-- The `AssemblerError` kinds, tagged by the message template of each
`raise` site, with the originating line number. -/
inductive AsmError where
  | invalidRegister (line_num : Nat)
  | immOutOfRange (line_num : Nat)
  | invalidImmediate (line_num : Nat)
  | wrongOperandCount (line_num : Nat)
  | badMemOperand (line_num : Nat)
  | undefinedLabel (line_num : Nat)
  | jumpOutOfRange (line_num : Nat)
  | unknownInstruction (line_num : Nat)
  | uncaughtValueError (line_num : Nat)
deriving Repr, DecidableEq

/-- `tokenize_line`: comment stripping, optional label, mnemonic, operand
list.  (The source guards each cut by a containment test; cutting at the
first occurrence with no guard is the same function.) -/
def tokenize_line (line0 : List Char) :
    Option (List Char) × Option (List Char) × List (List Char) :=
  let line1 := line0.takeWhile (fun c => c ≠ '#')
  let line2 := cutDoubleSlash line1
  let line3 := pyStrip line2
  if line3 = [] then (none, none, [])
  else
    let (label, line4) :=
      if line3.contains ':' then
        ((some (pyStrip (line3.takeWhile (fun c => c ≠ ':'))) : Option (List Char)),
         pyStrip ((line3.dropWhile (fun c => c ≠ ':')).tail))
      else (none, line3)
    if line4 = [] then (label, none, [])
    else
      let instruction := pyUpper (line4.takeWhile (fun c => ¬ isPySpace c))
      let rest := (line4.dropWhile (fun c => ¬ isPySpace c)).dropWhile isPySpace
      if rest = [] then (label, some instruction, [])
      else (label, some instruction, (splitOnChar ',' rest).map pyStrip)

/-- `parse_register`. -/
def parse_register (reg : List Char) (line_num : Nat) : Except AsmError Nat :=
  match lookupStr REGISTERS (pyLower (pyStrip reg)) with
  | some n => Except.ok n
  | none => Except.error (AsmError.invalidRegister line_num)

/-- `parse_immediate` (default `bits = 6` everywhere in the source). -/
def parse_immediate (imm : List Char) (line_num : Nat) (bits : Nat) :
    Except AsmError Nat :=
  let s := pyStrip imm
  let value? : Option Int :=
    if ("0x".toList.isPrefixOf s ∨ "0X".toList.isPrefixOf s) then
      (pyIntHex s).map fun n => (n : Int)
    else pyIntDec s
  match value? with
  | none => Except.error (AsmError.invalidImmediate line_num)
  | some value =>
    let maxVal : Int := 2 ^ (bits - 1) - 1
    let minVal : Int := -(2 ^ (bits - 1) : Int)
    if value < minVal ∨ maxVal < value then
      Except.error (AsmError.immOutOfRange line_num)
    else
      let value2 := if value < 0 then (2 ^ bits : Int) + value else value
      Except.ok (pyAnd value2 ((2 ^ bits : Int) - 1)).toNat

/-- `encode_r_type`. -/
def encode_r_type (rs rt rd funct : Nat) : Nat :=
  (0 <<< 12) ||| (rs <<< 9) ||| (rt <<< 6) ||| (rd <<< 3) ||| funct

/-- `encode_i_type`. -/
def encode_i_type (opcode rs rt imm : Nat) : Nat :=
  (opcode <<< 12) ||| (rs <<< 9) ||| (rt <<< 6) ||| (imm &&& 0x3F)

/-- `encode_j_type` (the address has already passed the `[0, 0xFFF]` range
check, so it is a `Nat` here). -/
def encode_j_type (opcode address : Nat) : Nat :=
  (opcode <<< 12) ||| (address &&& 0xFFF)

/-- The memory-operand regex `(-?\d+)\s*\(\s*(\$?r\d)\s*\)` applied with
`re.match` (prefix match, case-insensitive): returns the two groups. -/
def memOperandMatch (l : List Char) : Option (List Char × List Char) :=
  let hasSign : Bool := l.head? = some '-'
  let sign : List Char := if hasSign then ['-'] else []
  let l1 : List Char := if hasSign then l.tail else l
  let digits := l1.takeWhile isDigitChar
  if digits = [] then none
  else
    let l2 := (l1.drop digits.length).dropWhile isPySpace
    if l2.head? = some '(' then
      let l4 := l2.tail.dropWhile isPySpace
      let hasDollar : Bool := l4.head? = some '$'
      let dollar : List Char := if hasDollar then ['$'] else []
      let l5 := if hasDollar then l4.tail else l4
      match l5 with
      | r :: d :: l6 =>
        if (r = 'r' ∨ r = 'R') ∧ isDigitChar d then
          if (l6.dropWhile isPySpace).head? = some ')' then
            some (sign ++ digits, dollar ++ [r, d])
          else none
        else none
      | _ => none
    else none

/-- `encode_instruction`. -/
def encode_instruction (instruction : List Char) (operands : List (List Char))
    (labels : List (List Char × Nat)) (current_addr : Nat) (line_num : Nat) :
    Except AsmError Nat :=
  match lookupStr R_TYPE_FUNCT instruction with
  | some funct =>
    if instruction = "JR".toList then
      if operands.length ≠ 1 then Except.error (AsmError.wrongOperandCount line_num)
      else do
        let rs ← parse_register (operands.getD 0 []) line_num
        return encode_r_type rs 0 0 funct
    else
      if operands.length ≠ 3 then Except.error (AsmError.wrongOperandCount line_num)
      else do
        let rd ← parse_register (operands.getD 0 []) line_num
        let rs ← parse_register (operands.getD 1 []) line_num
        let rt ← parse_register (operands.getD 2 []) line_num
        return encode_r_type rs rt rd funct
  | none =>
  match lookupStr I_TYPE_OPCODES instruction with
  | some opcode =>
    if instruction = "LW".toList ∨ instruction = "SW".toList then
      if operands.length = 2 then do
        let rt ← parse_register (operands.getD 0 []) line_num
        match memOperandMatch (operands.getD 1 []) with
        | some (g1, g2) => do
          let imm ← parse_immediate g1 line_num 6
          let rs ← parse_register g2 line_num
          return encode_i_type opcode rs rt imm
        | none => Except.error (AsmError.badMemOperand line_num)
      else if operands.length = 3 then do
        let rt ← parse_register (operands.getD 0 []) line_num
        let rs ← parse_register (operands.getD 1 []) line_num
        let imm ← parse_immediate (operands.getD 2 []) line_num 6
        return encode_i_type opcode rs rt imm
      else Except.error (AsmError.wrongOperandCount line_num)
    else if instruction = "BEQ".toList ∨ instruction = "BNQ".toList then
      if operands.length ≠ 3 then Except.error (AsmError.wrongOperandCount line_num)
      else do
        let rs ← parse_register (operands.getD 0 []) line_num
        let rt ← parse_register (operands.getD 1 []) line_num
        let target := pyStrip (operands.getD 2 [])
        let offset : Except AsmError Int ←
          match lookupStr labels target with
          | some a => pure (Except.ok ((a : Int) - ((current_addr : Int) + 1)))
          | none =>
            let stripped := target.dropWhile (fun c => c = '-')
            if stripped ≠ [] ∧ stripped.all isDigitChar then
              match pyIntDec target with
              | some v => pure (Except.ok v)
              | none => pure (Except.error (AsmError.uncaughtValueError line_num))
            else if "0x".toList.isPrefixOf target then
              match pyIntHex target with
              | some v => pure (Except.ok (v : Int))
              | none => pure (Except.error (AsmError.uncaughtValueError line_num))
            else pure (Except.ok 0)
        match offset with
        | Except.error e => Except.error e
        | Except.ok off => do
          let imm ← parse_immediate (intStr off) line_num 6
          return encode_i_type opcode rs rt imm
    else
      if operands.length ≠ 3 then Except.error (AsmError.wrongOperandCount line_num)
      else do
        let rt ← parse_register (operands.getD 0 []) line_num
        let rs ← parse_register (operands.getD 1 []) line_num
        let imm ← parse_immediate (operands.getD 2 []) line_num 6
        return encode_i_type opcode rs rt imm
  | none =>
  match lookupStr J_TYPE_OPCODES instruction with
  | some opcode =>
    if operands.length ≠ 1 then Except.error (AsmError.wrongOperandCount line_num)
    else
      let target := pyStrip (operands.getD 0 [])
      let address? : Except AsmError Int :=
        match lookupStr labels target with
        | some a => Except.ok (a : Int)
        | none =>
          if "0x".toList.isPrefixOf target ∨ "0X".toList.isPrefixOf target then
            match pyIntHex target with
            | some v => Except.ok (v : Int)
            | none => Except.error (AsmError.undefinedLabel line_num)
          else
            match pyIntDec target with
            | some v => Except.ok v
            | none => Except.error (AsmError.undefinedLabel line_num)
      match address? with
      | Except.error e => Except.error e
      | Except.ok address =>
        if address < 0 ∨ (0xFFF : Int) < address then
          Except.error (AsmError.jumpOutOfRange line_num)
        else Except.ok (encode_j_type opcode address.toNat)
  | none => Except.error (AsmError.unknownInstruction line_num)

/-- `disassemble`. -/
def disassemble (hex_code : List Char) : List Char :=
  match pyIntHex hex_code with
  | none => "???".toList
  | some code =>
    let opcode := (code >>> 12) &&& 0xF
    if opcode = 0b0000 then
      let rs := (code >>> 9) &&& 0x7
      let rt := (code >>> 6) &&& 0x7
      let rd := (code >>> 3) &&& 0x7
      let funct := code &&& 0x7
      let instr := (lookupVal R_TYPE_FUNCT funct).getD "???".toList
      if instr = "JR".toList then
        "JR $r".toList ++ natStr rs
      else
        instr ++ " $r".toList ++ natStr rd ++ ", $r".toList ++ natStr rs ++
          ", $r".toList ++ natStr rt
    else if opcode = 0b1001 ∨ opcode = 0b1010 then
      let address := code &&& 0xFFF
      let instr := if opcode = 0b1001 then "JUMP".toList else "JAL".toList
      instr ++ [' '] ++ natStr address
    else
      let rs := (code >>> 9) &&& 0x7
      let rt := (code >>> 6) &&& 0x7
      let imm0 := code &&& 0x3F
      let imm : Int := if imm0 &&& 0x20 ≠ 0 then (imm0 : Int) - 64 else (imm0 : Int)
      let instr := (lookupVal I_TYPE_OPCODES opcode).getD "???".toList
      if instr = "LW".toList ∨ instr = "SW".toList then
        instr ++ " $r".toList ++ natStr rt ++ ", ".toList ++ intStr imm ++
          ['('] ++ "$r".toList ++ natStr rs ++ [')']
      else if instr = "BEQ".toList ∨ instr = "BNQ".toList then
        instr ++ " $r".toList ++ natStr rs ++ ", $r".toList ++ natStr rt ++
          ", ".toList ++ intStr imm
      else
        instr ++ " $r".toList ++ natStr rt ++ ", $r".toList ++ natStr rs ++
          ", ".toList ++ intStr imm

/-- Re-assemble a disassembled line as a single instruction line at address
0 with an empty label table (tokenize, then encode). -/
def reassemble_line (line : List Char) : Except AsmError Nat :=
  match tokenize_line line with
  | (_, some instr, ops) => encode_instruction instr ops [] 0 1
  | _ => Except.error (AsmError.unknownInstruction 1)

/-! ### Supporting concrete programs (assembler outputs used for witnesses
and counterexamples) -/

/-- Spec scenario 1: ADDI $r1,$r0,5 ; ADDI $r2,$r0,3 ; ADD $r3,$r1,$r2. -/
def progScenario1 : List Nat := [0x3045, 0x3083, 0x0298]

/-- LW $r1, 0($r0) followed by BEQ $r1, $r0, 0: a taken branch that consumes
a load, held in IF/ID across two stall cycles. -/
def progLoadBranch : List Nat := [0x1040, 0x6200]

/-- LW $r1, 0($r0) followed by BNQ $r1, $r0, 0: a (non-store) branch
consumer of a load. -/
def progLoadBnq : List Nat := [0x1040, 0x7200]

/-- LW $r1, 0($r0) followed by ADD $r3, $r1, $r2: the classic load-use
pair. -/
def progLoadUse : List Nat := [0x1040, 0x0298]

/-- The state two completed cycles into `progLoadUse` (the consumer sits in
IF/ID, the load in ID/EX: the hazard unit stalls on the next cycle). -/
def stallDemoState : MIPS_CPU :=
  ((MIPS_CPU.load_program progLoadUse).stepN 2).getD MIPS_CPU.resetState

/-- The completed cycle after `stallDemoState` (the stall cycle). -/
def stallDemoNext : MIPS_CPU :=
  (stallDemoState.step.map Prod.fst).getD MIPS_CPU.resetState

/-- Characters that survive tokenisation unscathed inside a mnemonic or
operand: no comment starters, no label colon, no comma, no whitespace. -/
def okChar (c : Char) : Bool :=
  c ≠ '#' && c ≠ '/' && c ≠ ':' && c ≠ ',' && !(isPySpace c)

/-- The operand list as `disassemble` prints it: pieces joined by a comma
and a single space. -/
def joinComma : List (List Char) → List Char
  | [] => []
  | [op] => op
  | op :: rest => op ++ ',' :: ' ' :: joinComma rest

/-! ## Theorems

Shared helper lemmas first, then one theorem per claim (with its witness
or counterexample where required). -/

theorem pyAnd_mask16 (a : Int) : pyAnd a 0xFFFF = a % 65536 := by
  show Int.land a 65535 = a % 65536
  cases a with
  | ofNat m =>
    show Int.land (Int.ofNat m) (Int.ofNat 65535) = _
    rw [Int.land]
    simp only [Int.ofNat_eq_coe]
    have h1 : (m : Int) % 65536 = ((m % 65536 : Nat) : Int) := by
      push_cast
      rfl
    rw [h1]
    norm_cast
    calc m &&& 65535 = m &&& (2 ^ 16 - 1) := by norm_num
    _ = m % 2 ^ 16 := Nat.and_pow_two_sub_one_eq_mod m 16
    _ = m % 65536 := by norm_num
  | negSucc m =>
    show Int.land (Int.negSucc m) (Int.ofNat 65535) = _
    rw [Int.land]
    have hld : Nat.ldiff 65535 m = 65535 - m % 65536 := by
      apply Nat.eq_of_testBit_eq
      intro i
      rw [Nat.testBit_ldiff]
      have h3 : 65535 - m % 65536 = 2 ^ 16 - (m % 65536 + 1) := by
        have := Nat.mod_lt m (y := 65536) (by norm_num)
        omega
      rw [h3, Nat.testBit_two_pow_sub_succ (Nat.mod_lt m (by norm_num))]
      rw [Nat.testBit_mod_two_pow]
      have h4 : (65535 : Nat) = 2 ^ 16 - (0 + 1) := by norm_num
      rw [h4, Nat.testBit_two_pow_sub_succ (by norm_num : (0 : Nat) < 2 ^ 16)]
      by_cases hi : i < 16 <;> simp [hi, Nat.testBit_zero]
    rw [hld]
    have hm := Nat.mod_lt m (y := 65536) (by norm_num)
    rw [Int.negSucc_emod m (by norm_num)]
    have h5 : ((m : Int)) % 65536 = ((m % 65536 : Nat) : Int) := by
      push_cast
      rfl
    rw [h5]
    omega

theorem mask16_eq (a : Int) : mask16 a = (a % 65536).toNat := by
  unfold mask16
  rw [pyAnd_mask16]

theorem mask16_lt (a : Int) : mask16 a < 65536 := by
  rw [mask16_eq]
  have h1 := Int.emod_nonneg a (by norm_num : (65536 : Int) ≠ 0)
  have h2 := Int.emod_lt_of_pos a (by norm_num : (0 : Int) < 65536)
  omega

theorem getD_set_ne (l : List Nat) (i v : Nat) (h : i ≠ 0) :
    (l.set i v).getD 0 0 = l.getD 0 0 := by
  cases l with
  | nil => rfl
  | cons a t =>
    cases i with
    | zero => omega
    | succ j => rfl

theorem stage_wb_reg0 (regs : List Nat) (mw : MEMWB) (h : regs.getD 0 0 = 0) :
    (stage_wb regs mw).getD 0 0 = 0 := by
  unfold stage_wb
  split
  · exact h
  · split
    · next hc =>
      split
      · rw [getD_set_ne _ _ _ hc.2]; exact h
      · rw [getD_set_ne _ _ _ hc.2]; exact h
    · exact h

theorem step_reg0 (s s' : MIPS_CPU) (b : Bool) (hstep : s.step = some (s', b))
    (h : s.registers.getD 0 0 = 0) : s'.registers.getD 0 0 = 0 := by
  unfold MIPS_CPU.step at hstep
  split at hstep
  · cases hstep with
    | refl => exact h
  · split at hstep
    · exact Option.noConfusion hstep
    · cases hstep with
      | refl => exact stage_wb_reg0 _ _ h

theorem stepN_reg0 (s : MIPS_CPU) (n : Nat) (s' : MIPS_CPU)
    (hstep : s.stepN n = some s') (h : s.registers.getD 0 0 = 0) :
    s'.registers.getD 0 0 = 0 := by
  induction n generalizing s with
  | zero =>
    cases hstep with
    | refl => exact h
  | succ m ih =>
    unfold MIPS_CPU.stepN at hstep
    cases hs : s.step with
    | none => rw [hs] at hstep; exact Option.noConfusion hstep
    | some p =>
      rw [hs] at hstep
      exact ih p.1 hstep (step_reg0 s p.1 p.2 hs h)

/-- C1.  For every loaded program and every sequence of completed `step()`
calls from a freshly reset CPU, register 0 reads 0: the writeback stage
discards writes to register 0, so `registers[0] = 0` is an invariant of
`step`. -/
theorem C1_register_zero_invariant (codes : List Nat) (n : Nat) (s' : MIPS_CPU)
    (hrun : (MIPS_CPU.load_program codes).stepN n = some s') :
    s'.registers.getD 0 0 = 0 :=
  stepN_reg0 _ n s' hrun rfl

/-- Witness for C1 at a concrete program and cycle count. -/
theorem C1_register_zero_invariant_witness :
    (((MIPS_CPU.load_program progScenario1).stepN 7).getD
      MIPS_CPU.resetState).registers.getD 0 0 = 0 :=
  C1_register_zero_invariant progScenario1 7 _ (by decide)

/-- Halted CPUs are fixed points of `step` (the early return at the top). -/
theorem step_of_halted (s : MIPS_CPU) (h : s.halted = true) :
    s.step = some (s, false) := by
  unfold MIPS_CPU.step
  rw [if_pos h]

/-- C9.  With no instructions loaded, the first `step()` immediately drains:
it sets `halted` and returns the not-running flag; and every `step()` on a
halted CPU returns `(s, False)` leaving the entire state unchanged. -/
theorem C9_empty_program_halts :
    (∀ s : MIPS_CPU, s.halted = true → s.step = some (s, false)) ∧
    ((MIPS_CPU.load_program []).step.map fun p => (p.1.halted, p.2)) =
      some (true, false) :=
  ⟨step_of_halted, by decide⟩

/-- Witness for C9: the universally quantified part applied to a concrete
halted state. -/
theorem C9_empty_program_halts_witness :
    ({ MIPS_CPU.resetState with halted := true } : MIPS_CPU).step =
      some ({ MIPS_CPU.resetState with halted := true }, false) :=
  C9_empty_program_halts.1 _ rfl

/-! Helpers for the 16-bit representability invariant (C10). -/

/-- All register and data-memory cells are 16-bit values. -/
def RegMem16 (s : MIPS_CPU) : Prop :=
  (∀ v ∈ s.registers, v < 65536) ∧ (∀ p ∈ s.data_memory, p.2 < 65536)

theorem mem_dictSet (m : List (Nat × Nat)) (k v : Nat) (p : Nat × Nat)
    (hp : p ∈ dictSet m k v) : p ∈ m ∨ p = (k, v) := by
  induction m with
  | nil =>
    unfold dictSet at hp
    simp at hp
    right; exact hp
  | cons q rest ih =>
    unfold dictSet at hp
    split at hp
    · rcases List.mem_cons.mp hp with h | h
      · right; exact h
      · left; exact List.mem_cons_of_mem _ h
    · rcases List.mem_cons.mp hp with h | h
      · left; exact h ▸ List.mem_cons_self _ _
      · rcases ih h with h2 | h2
        · left; exact List.mem_cons_of_mem _ h2
        · right; exact h2

theorem stage_wb_bound (regs : List Nat) (mw : MEMWB)
    (h : ∀ v ∈ regs, v < 65536) : ∀ v ∈ stage_wb regs mw, v < 65536 := by
  unfold stage_wb
  split
  · exact h
  · split
    · split
      all_goals
        intro v hv
        rcases List.mem_or_eq_of_mem_set hv with h2 | h2
        · exact h v h2
        · rw [h2]; exact mask16_lt _
    · exact h

theorem stage_mem_bound (dm : List (Nat × Nat)) (ex : EXMEM)
    (h : ∀ p ∈ dm, p.2 < 65536) :
    ∀ p ∈ (stage_mem dm ex).2.1, p.2 < 65536 := by
  unfold stage_mem
  split
  · exact h
  · split
    · exact h
    · split
      · intro p hp
        rcases mem_dictSet _ _ _ _ hp with h2 | h2
        · exact h p h2
        · rw [h2]; exact mask16_lt _
      · exact h

theorem step_regmem16 (s s' : MIPS_CPU) (b : Bool) (hstep : s.step = some (s', b))
    (h : RegMem16 s) : RegMem16 s' := by
  unfold MIPS_CPU.step at hstep
  split at hstep
  · cases hstep with
    | refl => exact h
  · rcases h with ⟨hr, hm⟩
    split at hstep
    · exact Option.noConfusion hstep
    · cases hstep with
      | refl => exact ⟨stage_wb_bound _ _ hr, stage_mem_bound _ _ hm⟩

theorem stepN_regmem16 (s : MIPS_CPU) (n : Nat) (s' : MIPS_CPU)
    (hstep : s.stepN n = some s') (h : RegMem16 s) : RegMem16 s' := by
  induction n generalizing s with
  | zero =>
    cases hstep with
    | refl => exact h
  | succ m ih =>
    unfold MIPS_CPU.stepN at hstep
    cases hs : s.step with
    | none => rw [hs] at hstep; exact Option.noConfusion hstep
    | some p =>
      rw [hs] at hstep
      exact ih p.1 hstep (step_regmem16 s p.1 p.2 hs h)

/-- C10.  From a freshly constructed or reset CPU with any loaded program,
every register value and every data-memory value stays in `[0, 65535]`
after every completed cycle: the writeback and store paths mask with
`& 0xFFFF` and the cells start at zero / empty. -/
theorem C10_sixteen_bit_invariant (codes : List Nat) (n : Nat) (s' : MIPS_CPU)
    (hrun : (MIPS_CPU.load_program codes).stepN n = some s') :
    (∀ v ∈ s'.registers, v < 65536) ∧ (∀ p ∈ s'.data_memory, p.2 < 65536) :=
  stepN_regmem16 _ n s' hrun
    ⟨by
      intro v hv
      simp [MIPS_CPU.load_program, MIPS_CPU.resetState] at hv
      omega,
     by
      intro p hp
      simp [MIPS_CPU.load_program, MIPS_CPU.resetState] at hp⟩

/-- Witness for C10 at a concrete program and cycle count. -/
theorem C10_sixteen_bit_invariant_witness :
    (∀ v ∈ (((MIPS_CPU.load_program progScenario1).stepN 7).getD
      MIPS_CPU.resetState).registers, v < 65536) ∧
    (∀ p ∈ (((MIPS_CPU.load_program progScenario1).stepN 7).getD
      MIPS_CPU.resetState).data_memory, p.2 < 65536) :=
  C10_sixteen_bit_invariant progScenario1 7 _ (by decide)

theorem stepCore_stall_fields (s : MIPS_CPU) (f : IFID) (p : Int)
    (hst : s.stall_signal = true) :
    (s.stepCore f p).1.IF_ID = s.IF_ID ∧ (s.stepCore f p).1.ID_EX = empty_id_ex ∧
    (s.stepCore f p).1.pc = s.IF_ID.pc + 1 := by
  unfold MIPS_CPU.stall_signal at hst
  simp only at hst
  unfold MIPS_CPU.stepCore
  simp only [hst]
  exact ⟨rfl, rfl, rfl⟩

/-- C6.  On every cycle whose hazard check asserts a stall, the next state
holds the IF/ID latch, puts the invalid bubble into ID/EX, and sets the PC
to `IF/ID.pc + 1`; nothing else is bubbled. -/
theorem C6_stall_three_effects (s s' : MIPS_CPU) (b : Bool)
    (hh : s.halted = false) (hstep : s.step = some (s', b))
    (hst : s.stall_signal = true) :
    s'.IF_ID = s.IF_ID ∧ s'.ID_EX = empty_id_ex ∧ s'.pc = s.IF_ID.pc + 1 := by
  unfold MIPS_CPU.step at hstep
  rw [if_neg (by simp [hh])] at hstep
  split at hstep
  · exact Option.noConfusion hstep
  · cases hstep with
    | refl => exact stepCore_stall_fields s _ _ hst

/-- Witness for C6: the stall cycle of the load-use program. -/
theorem C6_stall_three_effects_witness :
    stallDemoNext.IF_ID = stallDemoState.IF_ID ∧
    stallDemoNext.ID_EX = empty_id_ex ∧
    stallDemoNext.pc = stallDemoState.IF_ID.pc + 1 :=
  C6_stall_three_effects stallDemoState stallDemoNext true (by decide)
    (by decide) (by decide)

theorem stepCore_flush_count (s : MIPS_CPU) (f : IFID) (p : Int) :
    (s.stepCore f p).1.flush_count =
      s.flush_count + (if s.taken_resolution then 1 else 0) := by
  unfold MIPS_CPU.taken_resolution MIPS_CPU.stepCore
  simp only
  split <;> rfl

/-- C4 (counterexample).  In `progLoadBranch` the single BEQ — the only
control-transfer instruction, executed once (it retires into WB exactly
once, as `seen_in_wb` shows) — raises `flush_count` to 3: the taken
resolution is re-counted on each of the two stall cycles that hold the
branch in IF/ID before the transfer actually happens. -/
theorem C4_flush_count_counterexample :
    ((MIPS_CPU.load_program progLoadBranch).stepN 8).map
      (fun s => (s.flush_count, s.seen_in_wb, s.halted, s.stall_history)) =
      some (3, [((0 : Int), 0x1040), ((1 : Int), 0x6200)], true, [3, 4]) := by
  decide

/-- C4 (amended).  `flush_count` is incremented by exactly one on every
cycle whose decode resolves a taken branch or jump — including the cycles
where a simultaneous stall cancels the PC redirect and the held branch is
re-resolved later — and no other cycle changes it; so it counts
taken-resolution cycles, which can exceed the number of taken transfers
actually executed. -/
theorem C4_flush_count_amended (s s' : MIPS_CPU) (b : Bool)
    (hh : s.halted = false) (hstep : s.step = some (s', b)) :
    s'.flush_count = s.flush_count + (if s.taken_resolution then 1 else 0) := by
  unfold MIPS_CPU.step at hstep
  rw [if_neg (by simp [hh])] at hstep
  split at hstep
  · exact Option.noConfusion hstep
  · cases hstep with
    | refl => exact stepCore_flush_count s _ _

/-- Witness for the amended C4: the first taken-resolution cycle of the
load-branch program increments `flush_count` from 0 to 1. -/
theorem C4_flush_count_amended_witness :
    ((((MIPS_CPU.load_program progLoadBranch).stepN 2).getD
        MIPS_CPU.resetState).step.map Prod.fst |>.getD
        MIPS_CPU.resetState).flush_count = 1 := by
  have h := C4_flush_count_amended
    (((MIPS_CPU.load_program progLoadBranch).stepN 2).getD MIPS_CPU.resetState)
    ((((MIPS_CPU.load_program progLoadBranch).stepN 2).getD
        MIPS_CPU.resetState).step.map Prod.fst |>.getD MIPS_CPU.resetState)
    true (by decide) (by decide)
  rw [h]
  decide

theorem ebind_ok {α β : Type} (a : α) (f : α → Except AsmError β) :
    (Except.ok a >>= f) = f a := rfl

/-- C8 (counterexample).  Assembling `BEQ $r1, $r2, FOO` with an empty label
table does *not* fail: the undefined label falls through to the silent
`else 0` arm of the offset computation, and machine code `0x6280`
(immediate 0) is returned. -/
theorem C8_undefined_branch_label_counterexample :
    encode_instruction "BEQ".toList ["$r1".toList, "$r2".toList, "FOO".toList]
      [] 0 1 = Except.ok 0x6280 := rfl

theorem beq_undefined_target_encodes_zero (o1 o2 o3 : List Char)
    (labels : List (List Char × Nat)) (addr line : Nat) (rs rt : Nat)
    (h1 : parse_register o1 line = Except.ok rs)
    (h2 : parse_register o2 line = Except.ok rt)
    (hlab : lookupStr labels (pyStrip o3) = none)
    (hdig : ((pyStrip o3).dropWhile (fun c => c = '-')).all isDigitChar = false)
    (hhex : "0x".toList.isPrefixOf (pyStrip o3) = false) :
    encode_instruction "BEQ".toList [o1, o2, o3] labels addr line =
      Except.ok (encode_i_type 6 rs rt 0) := by
  unfold encode_instruction
  simp only [show lookupStr R_TYPE_FUNCT ("BEQ".toList) = none from rfl,
    show lookupStr I_TYPE_OPCODES ("BEQ".toList) = some 6 from rfl]
  rw [if_neg (by decide)]
  rw [if_pos (by decide)]
  rw [if_neg (by simp)]
  simp only [show ([o1, o2, o3].getD 0 []) = o1 from rfl,
    show ([o1, o2, o3].getD 1 []) = o2 from rfl,
    show ([o1, o2, o3].getD 2 []) = o3 from rfl]
  rw [h1, h2]
  simp only [ebind_ok]
  rw [hlab]
  simp only []
  rw [if_neg (by simp [hdig])]
  rw [if_neg (by
    simp only [show ("0x".toList : List Char) = ['0', 'x'] from rfl] at hhex
    simp [hhex])]
  rw [show (pure (Except.ok 0) : Except AsmError (Except AsmError Int)) =
    Except.ok (Except.ok 0) from rfl]
  simp only [ebind_ok]
  rw [show parse_immediate (intStr 0) line 6 = Except.ok 0 from rfl]
  simp only [ebind_ok]
  rfl

theorem bnq_undefined_target_encodes_zero (o1 o2 o3 : List Char)
    (labels : List (List Char × Nat)) (addr line : Nat) (rs rt : Nat)
    (h1 : parse_register o1 line = Except.ok rs)
    (h2 : parse_register o2 line = Except.ok rt)
    (hlab : lookupStr labels (pyStrip o3) = none)
    (hdig : ((pyStrip o3).dropWhile (fun c => c = '-')).all isDigitChar = false)
    (hhex : "0x".toList.isPrefixOf (pyStrip o3) = false) :
    encode_instruction "BNQ".toList [o1, o2, o3] labels addr line =
      Except.ok (encode_i_type 7 rs rt 0) := by
  unfold encode_instruction
  simp only [show lookupStr R_TYPE_FUNCT ("BNQ".toList) = none from rfl,
    show lookupStr I_TYPE_OPCODES ("BNQ".toList) = some 7 from rfl]
  rw [if_neg (by decide)]
  rw [if_pos (by decide)]
  rw [if_neg (by simp)]
  simp only [show ([o1, o2, o3].getD 0 []) = o1 from rfl,
    show ([o1, o2, o3].getD 1 []) = o2 from rfl,
    show ([o1, o2, o3].getD 2 []) = o3 from rfl]
  rw [h1, h2]
  simp only [ebind_ok]
  rw [hlab]
  simp only []
  rw [if_neg (by simp [hdig])]
  rw [if_neg (by
    simp only [show ("0x".toList : List Char) = ['0', 'x'] from rfl] at hhex
    simp [hhex])]
  rw [show (pure (Except.ok 0) : Except AsmError (Except AsmError Int)) =
    Except.ok (Except.ok 0) from rfl]
  simp only [ebind_ok]
  rw [show parse_immediate (intStr 0) line 6 = Except.ok 0 from rfl]
  simp only [ebind_ok]
  rfl

/-- C8 (amended).  A BEQ/BNQ whose third operand is neither a defined label
nor numeric (not all digits after stripping leading minus signs, not
`0x`-prefixed) does not raise any error: the offset silently becomes 0 and
the branch assembles to `opcode | rs | rt | 0`. -/
theorem C8_undefined_branch_label_amended (instr o1 o2 o3 : List Char)
    (labels : List (List Char × Nat)) (addr line : Nat) (rs rt : Nat)
    (hinstr : instr = "BEQ".toList ∨ instr = "BNQ".toList)
    (h1 : parse_register o1 line = Except.ok rs)
    (h2 : parse_register o2 line = Except.ok rt)
    (hlab : lookupStr labels (pyStrip o3) = none)
    (hdig : ((pyStrip o3).dropWhile (fun c => c = '-')).all isDigitChar = false)
    (hhex : "0x".toList.isPrefixOf (pyStrip o3) = false) :
    encode_instruction instr [o1, o2, o3] labels addr line =
      Except.ok (encode_i_type (if instr = "BEQ".toList then 6 else 7) rs rt 0) := by
  rcases hinstr with h | h <;> subst h
  · rw [if_pos rfl]
    exact beq_undefined_target_encodes_zero o1 o2 o3 labels addr line rs rt
      h1 h2 hlab hdig hhex
  · rw [if_neg (by decide)]
    exact bnq_undefined_target_encodes_zero o1 o2 o3 labels addr line rs rt
      h1 h2 hlab hdig hhex

/-- Witness for the amended C8 at the concrete counterexample input. -/
theorem C8_undefined_branch_label_amended_witness :
    encode_instruction "BEQ".toList ["$r1".toList, "$r2".toList, "FOO".toList]
      [] 0 1 = Except.ok (encode_i_type (if "BEQ".toList = "BEQ".toList then 6
        else 7) 1 2 0) :=
  C8_undefined_branch_label_amended "BEQ".toList "$r1".toList "$r2".toList
    "FOO".toList [] 0 1 1 2 (Or.inl rfl) rfl rfl rfl rfl rfl

/-! Structural lemmas about decode, used for the serialization claim. -/

theorem tail_fst (r : IDEX) (bt : Bool) (jt : Option Int) (a : IDEX)
    (b : EXMEM) : (id_hazard_tail r bt jt a b).1 = r := rfl

theorem tail_bt (r : IDEX) (bt : Bool) (jt : Option Int) (a : IDEX)
    (b : EXMEM) : (id_hazard_tail r bt jt a b).2.1 = bt := rfl

theorem tail_jt (r : IDEX) (bt : Bool) (jt : Option Int) (a : IDEX)
    (b : EXMEM) : (id_hazard_tail r bt jt a b).2.2.1 = jt := rfl

theorem check1_stall (r : IDEX) (a : IDEX)
    (h : (id_hazard_check1 r a).2.isSome = true) :
    (id_hazard_check1 r a).1 = true := by
  unfold id_hazard_check1 at h ⊢
  repeat' split at h <;> simp_all

theorem check2_stall (r : IDEX) (b : EXMEM)
    (h : (id_hazard_check2 r b).2.isSome = true) :
    (id_hazard_check2 r b).1 = true := by
  unfold id_hazard_check2 at h ⊢
  repeat' split at h <;> simp_all

theorem id_tail_stall_of_info (r : IDEX) (bt : Bool) (jt : Option Int)
    (a : IDEX) (b : EXMEM)
    (h : (id_hazard_tail r bt jt a b).2.2.2.2.isSome = true) :
    (id_hazard_tail r bt jt a b).2.2.2.1 = true := by
  unfold id_hazard_tail at h ⊢
  simp only at h ⊢
  split at h
  · next h2 => rw [check2_stall r b h2]; simp
  · rw [check1_stall r a h]; simp

theorem dispatch_fst_valid (r : IDEX) (op : Nat) (pc imm x y : Int) :
    (itype_dispatch r op pc imm x y).1.valid = r.valid := by
  unfold itype_dispatch
  repeat' split
  all_goals rfl

theorem rtype_valid (registers : List Nat) (base : IDEX) (code : Nat)
    (a : IDEX) (b : EXMEM) (c : MEMWB) (d : EXMEM) (hb : base.valid = true) :
    (stage_id_rtype registers base code a b c d).1.valid = true := by
  unfold stage_id_rtype
  simp only [tail_fst]
  repeat' split
  all_goals exact hb

theorem jtype_valid (base : IDEX) (code : Nat) (a : IDEX) (b : EXMEM)
    (hb : base.valid = true) :
    (stage_id_jtype base code a b).1.valid = true := by
  unfold stage_id_jtype
  simp only [tail_fst]
  repeat' split
  all_goals exact hb

theorem itype_valid (registers : List Nat) (base : IDEX) (code : Nat)
    (a : IDEX) (b : EXMEM) (c : MEMWB) (d : EXMEM) (hb : base.valid = true) :
    (stage_id_itype registers base code a b c d).1.valid = true := by
  unfold stage_id_itype
  simp only [tail_fst, dispatch_fst_valid]
  exact hb

theorem rtype_info_stall (registers : List Nat) (base : IDEX) (code : Nat)
    (a : IDEX) (b : EXMEM) (c : MEMWB) (d : EXMEM)
    (out : IDEX × Bool × Option Int × Bool × Option StallInfo)
    (h : stage_id_rtype registers base code a b c d = out)
    (hi : out.2.2.2.2.isSome = true) : out.2.2.2.1 = true := by
  unfold stage_id_rtype at h
  simp only [] at h
  repeat' split at h
  all_goals rw [← h] at hi ⊢
  all_goals first
    | rfl
    | exact id_tail_stall_of_info _ _ _ _ _ hi

theorem jtype_info_stall (base : IDEX) (code : Nat) (a : IDEX) (b : EXMEM)
    (out : IDEX × Bool × Option Int × Bool × Option StallInfo)
    (h : stage_id_jtype base code a b = out)
    (hi : out.2.2.2.2.isSome = true) : out.2.2.2.1 = true := by
  unfold stage_id_jtype at h
  simp only [] at h
  repeat' split at h
  all_goals rw [← h] at hi ⊢
  all_goals first
    | rfl
    | exact id_tail_stall_of_info _ _ _ _ _ hi

theorem itype_info_stall (registers : List Nat) (base : IDEX) (code : Nat)
    (a : IDEX) (b : EXMEM) (c : MEMWB) (d : EXMEM)
    (out : IDEX × Bool × Option Int × Bool × Option StallInfo)
    (h : stage_id_itype registers base code a b c d = out)
    (hi : out.2.2.2.2.isSome = true) : out.2.2.2.1 = true := by
  unfold stage_id_itype at h
  rw [← h] at hi ⊢
  exact id_tail_stall_of_info _ _ _ _ _ hi

theorem stage_id_info_stall (regs : List Nat) (i : IFID) (a : IDEX) (b : EXMEM)
    (c : MEMWB) (d : EXMEM)
    (out : IDEX × Bool × Option Int × Bool × Option StallInfo)
    (h : stage_id regs i a b c d = out)
    (hi : out.2.2.2.2.isSome = true) : out.2.2.2.1 = true := by
  unfold stage_id at h
  simp only [] at h
  repeat' split at h
  · rw [← h] at hi; simp at hi
  · rw [← h] at hi; simp at hi
  · exact rtype_info_stall _ _ _ _ _ _ _ _ h hi
  · exact jtype_info_stall _ _ _ _ _ h hi
  · exact itype_info_stall _ _ _ _ _ _ _ _ h hi

theorem stage_id_stall_if_valid (regs : List Nat) (i : IFID) (a : IDEX)
    (b : EXMEM) (c : MEMWB) (d : EXMEM)
    (h : (stage_id regs i a b c d).2.2.2.1 = true) : i.valid = true := by
  by_contra hv
  simp only [Bool.not_eq_true] at hv
  unfold stage_id at h
  rw [if_pos (by simp [hv])] at h
  simp at h

theorem stage_id_taken_if_valid (regs : List Nat) (i : IFID) (a : IDEX)
    (b : EXMEM) (c : MEMWB) (d : EXMEM)
    (h : ((stage_id regs i a b c d).2.1 ||
      (stage_id regs i a b c d).2.2.1.isSome) = true) : i.valid = true := by
  by_contra hv
  simp only [Bool.not_eq_true] at hv
  unfold stage_id at h
  rw [if_pos (by simp [hv])] at h
  simp at h

theorem stage_id_valid_or_trivial (regs : List Nat) (i : IFID) (a : IDEX)
    (b : EXMEM) (c : MEMWB) (d : EXMEM)
    (out : IDEX × Bool × Option Int × Bool × Option StallInfo)
    (h : stage_id regs i a b c d = out) :
    out.1.valid = true ∨ out = (empty_id_ex, false, none, false, none) := by
  unfold stage_id at h
  simp only [] at h
  repeat' split at h
  · right; rw [← h]
  · right; rw [← h]
  · left; rw [← h]; exact rtype_valid _ _ _ _ _ _ _ rfl
  · left; rw [← h]; exact jtype_valid _ _ _ _ rfl
  · left; rw [← h]; exact itype_valid _ _ _ _ _ _ _ rfl

/-! Lemmas for the serialization round-trip claim. -/

theorem stage_ex_invalid_no_fwd (a : IDEX) (b : EXMEM) (c : MEMWB)
    (out : EXMEM × Option Fwd × Option Fwd) (h : stage_ex a b c = out)
    (hv : out.1.valid = false) : out.2.1 = none ∧ out.2.2 = none := by
  unfold stage_ex at h
  split at h
  · rw [← h]; exact ⟨rfl, rfl⟩
  · rw [← h] at hv; simp at hv

theorem stage_mem_invalid_no_warn (dm : List (Nat × Nat)) (ex : EXMEM)
    (out : MEMWB × List (Nat × Nat) × Option MemWarning)
    (h : stage_mem dm ex = out) (hv : out.1.valid = false) : out.2.2 = none := by
  unfold stage_mem at h
  simp only [] at h
  repeat' split at h
  all_goals rw [← h] at hv ⊢
  all_goals first
    | rfl
    | simp at hv

theorem stepCore_halted_iff (s : MIPS_CPU) (f : IFID) (p : Int) :
    (s.stepCore f p).1.halted = true ↔
      (¬ (s.stepCore f p).1.IF_ID.valid = true ∧
       ¬ (s.stepCore f p).1.ID_EX.valid = true ∧
       ¬ (s.stepCore f p).1.EX_MEM.valid = true ∧
       ¬ (s.stepCore f p).1.MEM_WB.valid = true ∧
       ((s.instruction_memory.length : Int) ≤ (s.stepCore f p).1.pc)) := by
  exact decide_eq_true_iff

theorem stepCore_nostall_ID_EX (s : MIPS_CPU) (f : IFID) (p : Int)
    (hst : s.stall_signal = false) :
    (s.stepCore f p).1.ID_EX =
      (stage_id (stage_wb s.registers s.MEM_WB) s.IF_ID s.ID_EX s.EX_MEM
        s.MEM_WB (stage_ex s.ID_EX s.EX_MEM s.MEM_WB).1).1 := by
  unfold MIPS_CPU.stall_signal at hst
  simp only at hst
  unfold MIPS_CPU.stepCore
  simp only [hst, Bool.false_eq_true, if_false]

theorem stepCore_noflush (s : MIPS_CPU) (f : IFID) (p : Int)
    (hnt : s.taken_resolution = false) :
    (s.stepCore f p).1.control_hazard = none ∧
    (s.stepCore f p).1.flush_occurred = false := by
  unfold MIPS_CPU.taken_resolution at hnt
  simp only at hnt
  unfold MIPS_CPU.stepCore
  simp only [hnt, Bool.false_eq_true, if_false]
  exact ⟨trivial, trivial⟩

theorem stepCore_haltClean (s : MIPS_CPU) (f : IFID) (p : Int) :
    MIPS_CPU.HaltClean (s.stepCore f p).1 := by
  intro hhalt
  obtain ⟨h1, h2, h3, h4, _⟩ := (stepCore_halted_iff s f p).mp hhalt
  rw [Bool.not_eq_true] at h1 h2 h3 h4
  have hex := stage_ex_invalid_no_fwd s.ID_EX s.EX_MEM s.MEM_WB _ rfl h3
  have hmm := stage_mem_invalid_no_warn s.data_memory s.EX_MEM _ rfl h4
  have hinfo : (s.stepCore f p).1.stall_info = none := by
    cases hop : (stage_id (stage_wb s.registers s.MEM_WB) s.IF_ID s.ID_EX
        s.EX_MEM s.MEM_WB (stage_ex s.ID_EX s.EX_MEM s.MEM_WB).1).2.2.2.2 with
    | none => exact hop
    | some si =>
      exfalso
      have hstall := stage_id_info_stall _ _ _ _ _ _ _ rfl (by rw [hop]; rfl)
      have hsig : s.stall_signal = true := by
        unfold MIPS_CPU.stall_signal
        simp only []
        rw [hstall]
        simp
      have hifid := (stepCore_stall_fields s f p hsig).1
      have hvalid := stage_id_stall_if_valid _ s.IF_ID _ _ _ _ hstall
      rw [hifid] at h1
      rw [h1] at hvalid
      exact Bool.noConfusion hvalid
  have htk : s.taken_resolution = false := by
    by_contra htk
    rw [Bool.not_eq_false] at htk
    unfold MIPS_CPU.taken_resolution at htk
    simp only [] at htk
    have hvalid := stage_id_taken_if_valid _ s.IF_ID _ _ _ _ htk
    rcases stage_id_valid_or_trivial (stage_wb s.registers s.MEM_WB) s.IF_ID
        s.ID_EX s.EX_MEM s.MEM_WB (stage_ex s.ID_EX s.EX_MEM s.MEM_WB).1 _ rfl
      with hdv | hdv
    · by_cases hsig : s.stall_signal = true
      · have hifid := (stepCore_stall_fields s f p hsig).1
        rw [hifid] at h1
        rw [h1] at hvalid
        exact Bool.noConfusion hvalid
      · rw [Bool.not_eq_true] at hsig
        have hid := stepCore_nostall_ID_EX s f p hsig
        rw [hid] at h2
        rw [h2] at hdv
        exact Bool.noConfusion hdv
    · rw [hdv] at htk
      simp at htk
  have hnf := stepCore_noflush s f p htk
  exact ⟨hex.1, hex.2, hinfo, hmm, hnf.1, hnf.2⟩

theorem step_haltClean (s s' : MIPS_CPU) (b : Bool)
    (hstep : s.step = some (s', b)) (hc : s.HaltClean) : s'.HaltClean := by
  unfold MIPS_CPU.step at hstep
  split at hstep
  · cases hstep with
    | refl => exact hc
  · split at hstep
    · exact Option.noConfusion hstep
    · cases hstep with
      | refl => exact stepCore_haltClean s _ _

theorem reachable_haltClean (s : MIPS_CPU) (hr : s.Reachable) : s.HaltClean := by
  induction hr with
  | load codes =>
    intro h
    simp [MIPS_CPU.load_program, MIPS_CPU.resetState] at h
  | step t t' b hs hstep ih => exact step_haltClean t t' b hstep ih

theorem stepN_halted (s : MIPS_CPU) (n : Nat) (hh : s.halted = true) :
    s.stepN n = some s := by
  induction n with
  | zero => rfl
  | succ m ih =>
    unfold MIPS_CPU.stepN
    rw [step_of_halted s hh]
    exact ih

theorem step_restore (s : MIPS_CPU) (hh : s.halted = false) :
    (MIPS_CPU.from_json s.to_json).step = s.step := by
  unfold MIPS_CPU.step
  rw [show (MIPS_CPU.from_json s.to_json).halted = s.halted from rfl, hh]
  simp only [Bool.false_eq_true, if_false]
  rfl

theorem stepN_restore (s : MIPS_CPU) (hh : s.halted = false) (n : Nat)
    (hn : 1 ≤ n) :
    (MIPS_CPU.from_json s.to_json).stepN n = s.stepN n := by
  obtain ⟨m, rfl⟩ : ∃ m, n = m + 1 := ⟨n - 1, by omega⟩
  unfold MIPS_CPU.stepN
  rw [step_restore s hh]

theorem get_state_restore (s : MIPS_CPU) (hc : s.HaltClean)
    (hh : s.halted = true) :
    (MIPS_CPU.from_json s.to_json).get_state = s.get_state := by
  obtain ⟨f1, f2, f3, f4, f5, f6⟩ := hc hh
  unfold MIPS_CPU.get_state
  rw [f1, f2, f3, f4, f5, f6]
  rfl

/-- C3.  For every reachable CPU state, restoring `from_json(to_json(s))`
and stepping `n ≥ 1` times produces exactly the same `get_state()`
snapshots as stepping the original: the persisted layout carries every
field `step` reads, and the per-cycle observability records it drops are
recomputed by the first step (and are already cleared in any reachable
halted state). -/
theorem C3_serialization_roundtrip (s : MIPS_CPU) (hr : s.Reachable) (n : Nat) (hn : 1 ≤ n) :
    ((MIPS_CPU.from_json s.to_json).stepN n).map MIPS_CPU.get_state =
      (s.stepN n).map MIPS_CPU.get_state := by
  by_cases hh : s.halted = true
  · rw [stepN_halted s n hh,
      stepN_halted (MIPS_CPU.from_json s.to_json) n
        (by rw [show (MIPS_CPU.from_json s.to_json).halted = s.halted from rfl]; exact hh)]
    rw [Option.map_some', Option.map_some',
      get_state_restore s (reachable_haltClean s hr) hh]
  · rw [stepN_restore s (by rw [Bool.not_eq_true] at hh; exact hh) n hn]

/-- Witness for C3 at a concrete reachable state and `n = 3`. -/
theorem C3_serialization_roundtrip_witness :
    ((MIPS_CPU.from_json (MIPS_CPU.load_program progScenario1).to_json).stepN 3).map
        MIPS_CPU.get_state =
      ((MIPS_CPU.load_program progScenario1).stepN 3).map MIPS_CPU.get_state :=
  C3_serialization_roundtrip _ (MIPS_CPU.Reachable.load progScenario1) 3 (by omega)

/-! Digit-string lemmas. -/

theorem parseDigitsFrom_cons (acc : Nat) (c : Char) (t : List Char) :
    parseDigitsFrom acc (c :: t) =
      if isDigitChar c = true then parseDigitsFrom (acc * 10 + (c.toNat - 48)) t
      else none := rfl

theorem parseDigitsFrom_append (acc : Nat) (xs ys : List Char) :
    parseDigitsFrom acc (xs ++ ys) =
      match parseDigitsFrom acc xs with
      | some a => parseDigitsFrom a ys
      | none => none := by
  induction xs generalizing acc with
  | nil => rfl
  | cons c t ih =>
    rw [List.cons_append, parseDigitsFrom_cons, parseDigitsFrom_cons]
    split
    · exact ih _
    · rfl

theorem natStrGo_all_digits (fuel n : Nat) :
    ∀ c ∈ natStrGo fuel n, isDigitChar c = true := by
  induction fuel generalizing n with
  | zero => intro c hc; simp [natStrGo] at hc
  | succ f ih =>
    intro c hc
    unfold natStrGo at hc
    split at hc
    · next hn =>
      simp at hc
      subst hc
      interval_cases n <;> decide
    · rcases List.mem_append.mp hc with h | h
      · exact ih (n / 10) c h
      · simp at h
        subst h
        have h10 : n % 10 < 10 := Nat.mod_lt _ (by norm_num)
        interval_cases hm : (n % 10) <;> simp_all <;> decide

theorem natStrGo_ne_nil (fuel n : Nat) (h : 0 < fuel) : natStrGo fuel n ≠ [] := by
  cases fuel with
  | zero => omega
  | succ f =>
    unfold natStrGo
    split
    · simp
    · simp

theorem parse_natStrGo (fuel : Nat) : ∀ n acc, n < fuel →
    parseDigitsFrom acc (natStrGo fuel n) =
      some (acc * 10 ^ (natStrGo fuel n).length + n) := by
  induction fuel with
  | zero => intro n acc h; omega
  | succ f ih =>
    intro n acc h
    unfold natStrGo
    split
    · next hn =>
      rw [parseDigitsFrom_cons]
      rw [if_pos (by interval_cases n <;> decide)]
      have hc : (Char.ofNat (48 + n)).toNat - 48 = n := by
        interval_cases n <;> decide
      rw [hc]
      simp [parseDigitsFrom]
    · next hn =>
      simp only [Nat.not_lt] at hn
      have hdiv : n / 10 < f := by
        have h1 : n / 10 < n := Nat.div_lt_self (by omega) (by norm_num)
        omega
      rw [parseDigitsFrom_append]
      rw [ih (n / 10) acc hdiv]
      simp only []
      rw [parseDigitsFrom_cons]
      have h10 : n % 10 < 10 := Nat.mod_lt _ (by norm_num)
      rw [if_pos (by
        set m := n % 10 with hm
        interval_cases m <;> decide)]
      have hc : (Char.ofNat (48 + n % 10)).toNat - 48 = n % 10 := by
        set m := n % 10 with hm
        interval_cases m <;> decide
      rw [hc]
      simp [parseDigitsFrom]
      rw [pow_succ]
      have hdm := Nat.div_add_mod n 10
      set L := (natStrGo f (n / 10)).length with hL
      set q := (10 : Nat) ^ L with hq
      calc (acc * q + n / 10) * 10 + n % 10
          = acc * (q * 10) + (10 * (n / 10) + n % 10) := by ring
      _ = acc * (q * 10) + n := by rw [hdm]

theorem parseDigits_natStr (n : Nat) : parseDigits (natStr n) = some n := by
  unfold parseDigits natStr
  rw [if_neg (by simpa using natStrGo_ne_nil (n + 1) n (by omega))]
  rw [parse_natStrGo (n + 1) n 0 (by omega)]
  simp

theorem natStr_all_digits (n : Nat) : ∀ c ∈ natStr n, isDigitChar c = true :=
  natStrGo_all_digits (n + 1) n

theorem digitChar_facts (c : Char) (h : isDigitChar c = true) :
    c ≠ '#' ∧ c ≠ '/' ∧ c ≠ ':' ∧ c ≠ ',' ∧ c ≠ '-' ∧ c ≠ '+' ∧ c ≠ '(' ∧
    c ≠ ')' ∧ c ≠ '$' ∧ isPySpace c = false ∧ c ≠ 'x' ∧ c ≠ 'X' := by
  refine ⟨?_, ?_, ?_, ?_, ?_, ?_, ?_, ?_, ?_, ?_, ?_, ?_⟩
  all_goals first
    | (intro he; subst he; simp [isDigitChar] at h)
    | (by_contra hsp
       simp only [Bool.not_eq_false] at hsp
       simp only [isPySpace, Bool.or_eq_true, decide_eq_true_eq] at hsp
       rcases hsp with ((((h1 | h1) | h1) | h1) | h1) | h1 <;>
         (subst h1; simp [isDigitChar] at h))

theorem pyIntDec_nonneg_digits (l : List Char) (hne : l ≠ [])
    (hd : ∀ c ∈ l, isDigitChar c = true) :
    pyIntDec l = (parseDigits l).map fun n => (n : Int) := by
  cases l with
  | nil => simp at hne
  | cons c t =>
    have hc := digitChar_facts c (hd c (List.mem_cons_self c t))
    unfold pyIntDec
    simp only []
    rw [if_neg hc.2.2.2.2.1, if_neg hc.2.2.2.2.2.1]

theorem pyIntDec_intStr (i : Int) : pyIntDec (intStr i) = some i := by
  unfold intStr
  split
  · next hneg =>
    unfold pyIntDec
    simp only [if_true]
    rw [parseDigits_natStr]
    simp
    omega
  · next hpos =>
    rw [pyIntDec_nonneg_digits _
      (by simpa using natStrGo_ne_nil (i.toNat + 1) i.toNat (by omega))
      (natStr_all_digits i.toNat)]
    rw [parseDigits_natStr]
    simp
    omega

/-! Hex-string lemmas. -/

theorem parseHexFrom_cons (acc : Nat) (c : Char) (t : List Char) :
    parseHexFrom acc (c :: t) =
      match hexDigitVal c with
      | some d => parseHexFrom (acc * 16 + d) t
      | none => none := rfl

theorem parseHexFrom_append (acc : Nat) (xs ys : List Char) :
    parseHexFrom acc (xs ++ ys) =
      match parseHexFrom acc xs with
      | some a => parseHexFrom a ys
      | none => none := by
  induction xs generalizing acc with
  | nil => rfl
  | cons c t ih =>
    rw [List.cons_append, parseHexFrom_cons, parseHexFrom_cons]
    cases hexDigitVal c with
    | none => rfl
    | some d => exact ih _

/-- The character emitted for one hex digit. -/
theorem hexDigitVal_emitted (m : Nat) (h : m < 16) :
    hexDigitVal (Char.ofNat (if m < 10 then 48 + m else 55 + m)) = some m := by
  interval_cases m <;> decide

theorem isHexUpper_emitted (m : Nat) (h : m < 16) :
    (hexDigitVal (Char.ofNat (if m < 10 then 48 + m else 55 + m))).isSome = true := by
  rw [hexDigitVal_emitted m h]
  rfl

theorem natHexStrGo_ne_nil (fuel n : Nat) (h : 0 < fuel) :
    natHexStrGo fuel n ≠ [] := by
  cases fuel with
  | zero => omega
  | succ f =>
    unfold natHexStrGo
    split <;> simp

theorem parse_natHexStrGo (fuel : Nat) : ∀ n acc, n < fuel →
    parseHexFrom acc (natHexStrGo fuel n) =
      some (acc * 16 ^ (natHexStrGo fuel n).length + n) := by
  induction fuel with
  | zero => intro n acc h; omega
  | succ f ih =>
    intro n acc h
    unfold natHexStrGo
    split
    · next hn =>
      rw [parseHexFrom_cons, hexDigitVal_emitted n hn]
      simp [parseHexFrom]
    · next hn =>
      simp only [Nat.not_lt] at hn
      have hdiv : n / 16 < f := by
        have h1 : n / 16 < n := Nat.div_lt_self (by omega) (by norm_num)
        omega
      rw [parseHexFrom_append]
      rw [ih (n / 16) acc hdiv]
      simp only []
      have h16 : n % 16 < 16 := Nat.mod_lt _ (by norm_num)
      rw [parseHexFrom_cons, hexDigitVal_emitted (n % 16) h16]
      simp [parseHexFrom]
      rw [pow_succ]
      have hdm := Nat.div_add_mod n 16
      set L := (natHexStrGo f (n / 16)).length with hL
      set q := (16 : Nat) ^ L with hq
      calc (acc * q + n / 16) * 16 + n % 16
          = acc * (q * 16) + (16 * (n / 16) + n % 16) := by ring
      _ = acc * (q * 16) + n := by rw [hdm]

theorem parseHexFrom_zeros (k : Nat) (l : List Char) :
    parseHexFrom 0 (List.replicate k '0' ++ l) = parseHexFrom 0 l := by
  induction k with
  | zero => rfl
  | succ m ih =>
    rw [List.replicate_succ, List.cons_append, parseHexFrom_cons]
    simpa using ih

theorem parseHex_format04X (w : Nat) : parseHex (format04X w) = some w := by
  unfold parseHex format04X
  simp only []
  rw [if_neg (by
    intro he
    have h2 := List.append_eq_nil.mp he
    exact natHexStrGo_ne_nil (w + 1) w (by omega) h2.2)]
  rw [parseHexFrom_zeros]
  have := parse_natHexStrGo (w + 1) w 0 (by omega)
  unfold natHexStr
  rw [this]
  simp

theorem natHexStrGo_all_hex (fuel n : Nat) :
    ∀ c ∈ natHexStrGo fuel n, (hexDigitVal c).isSome = true := by
  induction fuel generalizing n with
  | zero => intro c hc; simp [natHexStrGo] at hc
  | succ f ih =>
    intro c hc
    unfold natHexStrGo at hc
    split at hc
    · next hn =>
      simp at hc
      subst hc
      exact isHexUpper_emitted n hn
    · rcases List.mem_append.mp hc with h | h
      · exact ih (n / 16) c h
      · simp at h
        subst h
        exact isHexUpper_emitted (n % 16) (Nat.mod_lt _ (by norm_num))

theorem format04X_chars (w : Nat) :
    ∀ c ∈ format04X w, c = '0' ∨ (hexDigitVal c).isSome = true := by
  intro c hc
  unfold format04X at hc
  rcases List.mem_append.mp hc with h | h
  · left; exact List.eq_of_mem_replicate h
  · right; exact natHexStrGo_all_hex (w + 1) w c h

theorem format04X_not_0x (w : Nat) :
    ("0x".toList.isPrefixOf (format04X w) ∨
      "0X".toList.isPrefixOf (format04X w)) = False := by
  have hmem := format04X_chars w
  simp only [eq_iff_iff, iff_false]
  intro hpre
  cases hl : format04X w with
  | nil =>
    rw [hl] at hpre
    rcases hpre with h | h <;> simp [List.isPrefixOf] at h
  | cons a t =>
    cases t with
    | nil =>
      rw [hl] at hpre
      rcases hpre with h | h <;> simp [List.isPrefixOf] at h
    | cons b u =>
      have hb : b ∈ format04X w := by rw [hl]; simp
      rcases hmem b hb with h0 | hhex
      · subst h0
        rw [hl] at hpre
        rcases hpre with h | h <;> simp [List.isPrefixOf] at h
      · rw [hl] at hpre
        rcases hpre with h | h <;>
          (simp [List.isPrefixOf] at h
           rw [← h.2] at hhex
           simp [hexDigitVal] at hhex)

theorem pyIntHex_format04X (w : Nat) : pyIntHex (format04X w) = some w := by
  unfold pyIntHex
  rw [if_neg (by
    have := format04X_not_0x w
    simp only [eq_iff_iff, iff_false] at this
    exact this)]
  exact parseHex_format04X w

theorem joinComma_one (op : List Char) : joinComma [op] = op := rfl

theorem joinComma_cons2 (op op2 : List Char) (rest : List (List Char)) :
    joinComma (op :: op2 :: rest) = op ++ ',' :: ' ' :: joinComma (op2 :: rest) := rfl

theorem splitOnChar_cons (c x : Char) (xs : List Char) :
    splitOnChar c (x :: xs) =
      match splitOnChar c xs with
      | [] => [[]]
      | y :: ys => if x = c then [] :: y :: ys else (x :: y) :: ys := rfl

theorem okChar_digit (c : Char) (h : isDigitChar c = true) : okChar c = true := by
  obtain ⟨h1, h2, h3, h4, _, _, _, _, _, h5, _, _⟩ := digitChar_facts c h
  simp [okChar, h1, h2, h3, h4, h5]

theorem takeWhile_all {p : Char → Bool} (l : List Char)
    (h : ∀ c ∈ l, p c = true) : l.takeWhile p = l := by
  induction l with
  | nil => rfl
  | cons a t ih =>
    rw [List.takeWhile_cons, h a (by simp)]
    exact congrArg (a :: ·) (ih fun c hc => h c (by simp [hc]))

theorem cutDoubleSlash_no (l : List Char) (h : '/' ∉ l) : cutDoubleSlash l = l := by
  induction l with
  | nil => rfl
  | cons a t ih =>
    match t with
    | [] => rfl
    | b :: rest =>
      have ha : a ≠ '/' := fun hc => h (by simp [hc])
      rw [cutDoubleSlash, if_neg (by simp [ha])]
      exact congrArg (a :: ·) (ih fun hc => h (by simp [hc]))

theorem dropWhile_all_false {p : Char → Bool} (l : List Char)
    (h : ∀ c ∈ l, p c = false) : l.dropWhile p = l := by
  induction l with
  | nil => rfl
  | cons a t _ =>
    rw [List.dropWhile_cons, h a (by simp)]
    simp

theorem dropWhile_head {p : Char → Bool} (a : Char) (l : List Char)
    (h : p a = false) : (a :: l).dropWhile p = a :: l := by
  rw [List.dropWhile_cons, h]; simp

theorem pyStrip_cons_space (c : Char) (l : List Char) (h : isPySpace c = true) :
    pyStrip (c :: l) = pyStrip l := by
  simp [pyStrip, List.dropWhile_cons, h]

theorem pyStrip_all_safe (l : List Char)
    (h : ∀ c ∈ l, isPySpace c = false) : pyStrip l = l := by
  rw [pyStrip, dropWhile_all_false l h,
      dropWhile_all_false l.reverse (fun c hc => h c (List.mem_reverse.mp hc)),
      List.reverse_reverse]

theorem mem_joinComma {c : Char} : ∀ (ops : List (List Char)),
    c ∈ joinComma ops → c = ',' ∨ c = ' ' ∨ ∃ op ∈ ops, c ∈ op := by
  intro ops
  match ops with
  | [] => intro h; exact absurd h (by simp [joinComma])
  | [op] => intro h; exact Or.inr (Or.inr ⟨op, by simp, h⟩)
  | op :: op2 :: rest =>
    intro h
    rw [joinComma_cons2] at h
    rcases List.mem_append.mp h with h1 | h2
    · exact Or.inr (Or.inr ⟨op, by simp, h1⟩)
    · rcases List.mem_cons.mp h2 with h4 | h5
      · exact Or.inl h4
      · rcases List.mem_cons.mp h5 with h6 | h7
        · exact Or.inr (Or.inl h6)
        · rcases mem_joinComma (op2 :: rest) h7 with h8 | h8 | ⟨o, ho, hco⟩
          · exact Or.inl h8
          · exact Or.inr (Or.inl h8)
          · exact Or.inr (Or.inr ⟨o, by simp [ho], hco⟩)

theorem joinComma_ne_nil (ops : List (List Char)) (h0 : ops ≠ [])
    (hne : ∀ op ∈ ops, op ≠ []) : joinComma ops ≠ [] := by
  match ops with
  | [op] => exact hne op (by simp)
  | op :: op2 :: rest =>
    rw [joinComma_cons2]
    rcases op with _ | ⟨a, t⟩ <;> simp

theorem getLast?_cons_ne (a : Char) (l : List Char) (h : l ≠ []) :
    (a :: l).getLast? = l.getLast? := by
  cases l with
  | nil => exact absurd rfl h
  | cons b t => rfl

theorem joinComma_getLast (ops : List (List Char)) (h0 : ops ≠ [])
    (hne : ∀ op ∈ ops, op ≠ []) :
    ∃ op ∈ ops, (joinComma ops).getLast? = op.getLast? := by
  match ops with
  | [op] => exact ⟨op, by simp, rfl⟩
  | op :: op2 :: rest =>
    obtain ⟨o, ho, hlast⟩ := joinComma_getLast (op2 :: rest) (by simp)
      (fun x hx => hne x (by simp [hx]))
    have hjc : joinComma (op2 :: rest) ≠ [] :=
      joinComma_ne_nil _ (by simp) (fun x hx => hne x (by simp [hx]))
    refine ⟨o, by simp [ho], ?_⟩
    rw [joinComma_cons2, List.getLast?_append_of_ne_nil _ (by simp),
        getLast?_cons_ne ',' _ (by simp), getLast?_cons_ne ' ' _ hjc, hlast]

theorem contains_false (l : List Char) (a : Char) (h : a ∉ l) :
    l.contains a = false := by
  induction l with
  | nil => rfl
  | cons b t ih =>
    have hb : (a == b) = false := by
      simp only [beq_eq_false_iff_ne]
      intro hc; exact h (by simp [hc])
    have ht := ih (fun hc => h (by simp [hc]))
    simp only [List.contains_cons, hb, ht]
    rfl

theorem takeWhile_append_stop {p : Char → Bool} (xs : List Char) (a : Char)
    (ys : List Char) (hx : ∀ c ∈ xs, p c = true) (ha : p a = false) :
    (xs ++ a :: ys).takeWhile p = xs := by
  induction xs with
  | nil => simp [List.takeWhile_cons, ha]
  | cons b t ih =>
    rw [List.cons_append, List.takeWhile_cons, hx b (by simp)]
    exact congrArg (b :: ·) (ih fun c hc => hx c (by simp [hc]))

theorem dropWhile_append_stop {p : Char → Bool} (xs : List Char) (a : Char)
    (ys : List Char) (hx : ∀ c ∈ xs, p c = true) (ha : p a = false) :
    (xs ++ a :: ys).dropWhile p = a :: ys := by
  induction xs with
  | nil => simp [List.dropWhile_cons, ha]
  | cons b t ih =>
    rw [List.cons_append, List.dropWhile_cons, hx b (by simp)]
    exact ih fun c hc => hx c (by simp [hc])

theorem splitOnChar_ne_nil (c : Char) (l : List Char) : splitOnChar c l ≠ [] := by
  match l with
  | [] => simp [splitOnChar]
  | x :: xs =>
    rw [splitOnChar_cons]
    obtain ⟨y, ys, heq⟩ := List.exists_cons_of_ne_nil (splitOnChar_ne_nil c xs)
    rw [heq]
    by_cases hx : x = c <;> simp [hx]

theorem splitOnChar_no (c : Char) (xs : List Char) (h : c ∉ xs) :
    splitOnChar c xs = [xs] := by
  induction xs with
  | nil => rfl
  | cons a t ih =>
    have ha : a ≠ c := fun hc => h (by simp [hc])
    rw [splitOnChar_cons, ih (fun hc => h (by simp [hc]))]
    simp [ha]

theorem splitOnChar_sep (c : Char) (xs ys : List Char) (h : c ∉ xs) :
    splitOnChar c (xs ++ c :: ys) = xs :: splitOnChar c ys := by
  induction xs with
  | nil =>
    obtain ⟨y, ys', heq⟩ := List.exists_cons_of_ne_nil (splitOnChar_ne_nil c ys)
    rw [List.nil_append, splitOnChar_cons, heq]
    simp [heq]
  | cons a t ih =>
    have ha : a ≠ c := fun hc => h (by simp [hc])
    have ih' := ih (fun hc => h (by simp [hc]))
    rw [List.cons_append, splitOnChar_cons, ih']
    simp [ha]

theorem split_joinComma (ops : List (List Char)) (h0 : ops ≠ [])
    (hne : ∀ op ∈ ops, op ≠ [])
    (hok : ∀ op ∈ ops, ∀ c ∈ op, okChar c = true) :
    (splitOnChar ',' (joinComma ops)).map pyStrip = ops := by
  match ops with
  | [op] =>
    have hcomma : ',' ∉ op := fun hc => by
      have := hok op (by simp) ',' hc
      simp [okChar] at this
    rw [joinComma_one, splitOnChar_no ',' op hcomma]
    have : pyStrip op = op :=
      pyStrip_all_safe op fun c hc => by
        have := hok op (by simp) c hc
        simp [okChar] at this
        exact this.2
    simp [this]
  | op :: op2 :: rest =>
    have hcomma : ',' ∉ op := fun hc => by
      have := hok op (by simp) ',' hc
      simp [okChar] at this
    have ih := split_joinComma (op2 :: rest) (by simp)
      (fun x hx => hne x (by simp [hx]))
      (fun x hx => hok x (by simp [hx]))
    obtain ⟨y, ys, heq⟩ :=
      List.exists_cons_of_ne_nil (splitOnChar_ne_nil ',' (joinComma (op2 :: rest)))
    rw [joinComma_cons2, splitOnChar_sep ',' op _ hcomma]
    have hsp : splitOnChar ',' (' ' :: joinComma (op2 :: rest)) = (' ' :: y) :: ys := by
      rw [splitOnChar_cons, heq]
      simp
    rw [hsp, List.map_cons, List.map_cons,
        pyStrip_cons_space ' ' y (by simp [isPySpace])]
    have : pyStrip op = op :=
      pyStrip_all_safe op fun c hc => by
        have := hok op (by simp) c hc
        simp [okChar] at this
        exact this.2
    rw [this]
    have := ih
    rw [heq, List.map_cons] at this
    rw [this]

theorem okChar_not_space (c : Char) (h : okChar c = true) : isPySpace c = false := by
  simp [okChar] at h
  exact h.2

theorem pyStrip_eq_self (l : List Char)
    (hh : ∀ c, l.head? = some c → isPySpace c = false)
    (hl : ∀ c, l.getLast? = some c → isPySpace c = false) : pyStrip l = l := by
  rw [pyStrip]
  have h1 : l.dropWhile isPySpace = l := by
    cases l with
    | nil => rfl
    | cons a t => exact dropWhile_head a t (hh a rfl)
  rw [h1]
  have h2 : l.reverse.dropWhile isPySpace = l.reverse := by
    cases hrev : l.reverse with
    | nil => rfl
    | cons a t =>
      refine dropWhile_head a t (hl a ?_)
      rw [← List.head?_reverse, hrev]
      rfl
  rw [h2, List.reverse_reverse]

theorem joinComma_head? (a : Char) (t : List Char) (rest : List (List Char)) :
    (joinComma ((a :: t) :: rest)).head? = some a := by
  cases rest <;> rfl

theorem tokenize_join (M : List Char) (ops : List (List Char))
    (hM0 : M ≠ [])
    (hMok : ∀ c ∈ M, okChar c = true)
    (hMup : pyUpper M = M)
    (hops0 : ops ≠ [])
    (hopne : ∀ op ∈ ops, op ≠ [])
    (hopok : ∀ op ∈ ops, ∀ c ∈ op, okChar c = true) :
    tokenize_line (M ++ ' ' :: joinComma ops) = (none, some M, ops) := by
  have hLmem : ∀ c ∈ M ++ ' ' :: joinComma ops,
      c = ' ' ∨ c = ',' ∨ okChar c = true := by
    intro c hc
    rcases List.mem_append.mp hc with h | h
    · exact Or.inr (Or.inr (hMok c h))
    · rcases List.mem_cons.mp h with h | h
      · exact Or.inl h
      · rcases mem_joinComma ops h with h | h | ⟨o, ho, hco⟩
        · exact Or.inr (Or.inl h)
        · exact Or.inl h
        · exact Or.inr (Or.inr (hopok o ho c hco))
  have hhash : '#' ∉ M ++ ' ' :: joinComma ops := by
    intro hc
    rcases hLmem '#' hc with h | h | h
    · exact absurd h (by decide)
    · exact absurd h (by decide)
    · simp [okChar] at h
  have hslash : '/' ∉ M ++ ' ' :: joinComma ops := by
    intro hc
    rcases hLmem '/' hc with h | h | h
    · exact absurd h (by decide)
    · exact absurd h (by decide)
    · simp [okChar] at h
  have hcolon : ':' ∉ M ++ ' ' :: joinComma ops := by
    intro hc
    rcases hLmem ':' hc with h | h | h
    · exact absurd h (by decide)
    · exact absurd h (by decide)
    · simp [okChar] at h
  have h1 : (M ++ ' ' :: joinComma ops).takeWhile (fun c => c ≠ '#') =
      M ++ ' ' :: joinComma ops :=
    takeWhile_all _ (fun c hc => by
      simp only [ne_eq, decide_not, Bool.not_eq_true']
      simp only [decide_eq_false_iff_not]
      intro hc2
      exact hhash (hc2 ▸ hc))
  have h2 : cutDoubleSlash (M ++ ' ' :: joinComma ops) =
      M ++ ' ' :: joinComma ops := cutDoubleSlash_no _ hslash
  obtain ⟨m, M2, hMeq⟩ := List.exists_cons_of_ne_nil hM0
  have hjnn : joinComma ops ≠ [] := joinComma_ne_nil ops hops0 hopne
  have h3 : pyStrip (M ++ ' ' :: joinComma ops) = M ++ ' ' :: joinComma ops := by
    refine pyStrip_eq_self _ ?_ ?_
    · intro c hc
      rw [hMeq, List.cons_append, List.head?_cons] at hc
      have : m = c := by injection hc
      exact this ▸ okChar_not_space m (hMok m (by simp [hMeq]))
    · intro c hc
      rw [List.getLast?_append_of_ne_nil _ (by simp),
          getLast?_cons_ne ' ' _ hjnn] at hc
      obtain ⟨o, ho, hlast⟩ := joinComma_getLast ops hops0 hopne
      rw [hlast] at hc
      exact okChar_not_space c
        (hopok o ho c (List.mem_of_mem_getLast? hc))
  have hcont : (M ++ ' ' :: joinComma ops).contains ':' = false :=
    contains_false _ ':' hcolon
  have h4 : (M ++ ' ' :: joinComma ops).takeWhile (fun c => ¬ isPySpace c) = M :=
    takeWhile_append_stop M ' ' _
      (fun c hc => by simp [okChar_not_space c (hMok c hc)])
      (by simp [isPySpace])
  have h5 : (M ++ ' ' :: joinComma ops).dropWhile (fun c => ¬ isPySpace c) =
      ' ' :: joinComma ops :=
    dropWhile_append_stop M ' ' _
      (fun c hc => by simp [okChar_not_space c (hMok c hc)])
      (by simp [isPySpace])
  have h6 : (' ' :: joinComma ops).dropWhile isPySpace = joinComma ops := by
    rw [List.dropWhile_cons]
    have hsp : isPySpace ' ' = true := by simp [isPySpace]
    rw [hsp]
    simp only [if_true]
    obtain ⟨o, ops2, hoeq⟩ := List.exists_cons_of_ne_nil hops0
    obtain ⟨a, t, haeq⟩ := List.exists_cons_of_ne_nil (hopne o (by simp [hoeq]))
    have hhead : (joinComma ops).head? = some a := by
      rw [hoeq, haeq]
      exact joinComma_head? a t ops2
    cases hjc : joinComma ops with
    | nil => rfl
    | cons b u =>
      rw [hjc] at hhead
      have hba : b = a := by injection hhead
      refine dropWhile_head b u ?_
      rw [hba]
      exact okChar_not_space a (hopok o (by simp [hoeq]) a (by simp [haeq]))
  have h7 := split_joinComma ops hops0 hopne hopok
  simp only [tokenize_line, h1, h2, h3, hcont, Bool.false_eq_true, if_false,
    h4, h5, h6, hMup, h7]
  rw [if_neg (by simp [hMeq]), if_neg (by simp [hMeq]), if_neg hjnn]

theorem or_shift (x a k : Nat) (h : a < 2 ^ k) : (x <<< k) ||| a = x * 2 ^ k + a := by
  apply Nat.eq_of_testBit_eq
  intro i
  rw [Nat.testBit_lor, Nat.shiftLeft_eq]
  rw [show x * 2 ^ k + a = 2 ^ k * x + a by ring]
  rw [Nat.testBit_mul_pow_two_add _ h]
  rw [show x * 2 ^ k = 2 ^ k * x by ring, Nat.testBit_mul_pow_two]
  by_cases hik : i < k
  · simp [hik, Nat.not_le_of_lt hik]
  · simp only [hik, if_false]
    simp only [Nat.not_lt] at hik
    simp [hik,
      Nat.testBit_lt_two_pow (Nat.lt_of_lt_of_le h (Nat.pow_le_pow_right (by omega) hik))]

theorem or_mul (y k a : Nat) (h : a < 2 ^ k) : (y * 2 ^ k) ||| a = y * 2 ^ k + a := by
  have := or_shift y a k h
  rwa [Nat.shiftLeft_eq] at this

theorem and_mask15 (x : Nat) : x &&& 15 = x % 16 := by
  have := Nat.and_pow_two_sub_one_eq_mod x 4
  norm_num at this
  exact this

theorem and_mask7 (x : Nat) : x &&& 7 = x % 8 := by
  have := Nat.and_pow_two_sub_one_eq_mod x 3
  norm_num at this
  exact this

theorem and_mask63 (x : Nat) : x &&& 63 = x % 64 := by
  have := Nat.and_pow_two_sub_one_eq_mod x 6
  norm_num at this
  exact this

theorem and_mask4095 (x : Nat) : x &&& 4095 = x % 4096 := by
  have := Nat.and_pow_two_sub_one_eq_mod x 12
  norm_num at this
  exact this

theorem shr12 (x : Nat) : x >>> 12 = x / 4096 := by
  have := Nat.shiftRight_eq_div_pow x 12
  norm_num at this
  exact this

theorem shr9 (x : Nat) : x >>> 9 = x / 512 := by
  have := Nat.shiftRight_eq_div_pow x 9
  norm_num at this
  exact this

theorem shr6 (x : Nat) : x >>> 6 = x / 64 := by
  have := Nat.shiftRight_eq_div_pow x 6
  norm_num at this
  exact this

theorem shr3 (x : Nat) : x >>> 3 = x / 8 := by
  have := Nat.shiftRight_eq_div_pow x 3
  norm_num at this
  exact this

theorem encode_r_type_eq (rs rt rd funct : Nat)
    (h2 : rt < 8) (h3 : rd < 8) (h4 : funct < 8) :
    encode_r_type rs rt rd funct = rs * 512 + rt * 64 + rd * 8 + funct := by
  simp only [encode_r_type, Nat.shiftLeft_eq]
  rw [show (0 : Nat) * 2 ^ 12 = 0 by ring, Nat.zero_or]
  rw [or_mul rs 9 (rt * 2 ^ 6) (by omega)]
  rw [show rs * 2 ^ 9 + rt * 2 ^ 6 = (rs * 2 ^ 3 + rt) * 2 ^ 6 by ring]
  rw [or_mul (rs * 2 ^ 3 + rt) 6 (rd * 2 ^ 3) (by omega)]
  rw [show (rs * 2 ^ 3 + rt) * 2 ^ 6 + rd * 2 ^ 3 =
    (rs * 2 ^ 6 + rt * 2 ^ 3 + rd) * 2 ^ 3 by ring]
  rw [or_mul _ 3 funct (by omega)]
  ring

theorem encode_i_type_eq (opcode rs rt imm : Nat)
    (h1 : rs < 8) (h2 : rt < 8) (h3 : imm < 64) :
    encode_i_type opcode rs rt imm = opcode * 4096 + rs * 512 + rt * 64 + imm := by
  simp only [encode_i_type, Nat.shiftLeft_eq]
  have him : imm &&& 63 = imm := by rw [and_mask63]; omega
  rw [him]
  rw [or_mul opcode 12 (rs * 2 ^ 9) (by omega)]
  rw [show opcode * 2 ^ 12 + rs * 2 ^ 9 = (opcode * 2 ^ 3 + rs) * 2 ^ 9 by ring]
  rw [or_mul (opcode * 2 ^ 3 + rs) 9 (rt * 2 ^ 6) (by omega)]
  rw [show (opcode * 2 ^ 3 + rs) * 2 ^ 9 + rt * 2 ^ 6 =
    (opcode * 2 ^ 6 + rs * 2 ^ 3 + rt) * 2 ^ 6 by ring]
  rw [or_mul _ 6 imm (by omega)]
  ring

theorem encode_j_type_eq (opcode address : Nat) (h : address < 4096) :
    encode_j_type opcode address = opcode * 4096 + address := by
  simp only [encode_j_type, Nat.shiftLeft_eq]
  have ha : address &&& 4095 = address := by rw [and_mask4095]; omega
  rw [ha]
  rw [or_mul opcode 12 address (by omega)]
  ring

theorem extract_i (op rs rt low : Nat) (hop : op < 16) (hrs : rs < 8)
    (hrt : rt < 8) (hlow : low < 64) :
    (op * 4096 + rs * 512 + rt * 64 + low) >>> 12 &&& 15 = op ∧
    (op * 4096 + rs * 512 + rt * 64 + low) >>> 9 &&& 7 = rs ∧
    (op * 4096 + rs * 512 + rt * 64 + low) >>> 6 &&& 7 = rt ∧
    (op * 4096 + rs * 512 + rt * 64 + low) &&& 63 = low := by
  refine ⟨?_, ?_, ?_, ?_⟩
  · rw [shr12, and_mask15]; omega
  · rw [shr9, and_mask7]; omega
  · rw [shr6, and_mask7]; omega
  · rw [and_mask63]; omega

theorem extract_r (rs rt rd funct : Nat) (hrs : rs < 8) (hrt : rt < 8)
    (hrd : rd < 8) (hf : funct < 8) :
    (rs * 512 + rt * 64 + rd * 8 + funct) >>> 12 &&& 15 = 0 ∧
    (rs * 512 + rt * 64 + rd * 8 + funct) >>> 9 &&& 7 = rs ∧
    (rs * 512 + rt * 64 + rd * 8 + funct) >>> 6 &&& 7 = rt ∧
    (rs * 512 + rt * 64 + rd * 8 + funct) >>> 3 &&& 7 = rd ∧
    (rs * 512 + rt * 64 + rd * 8 + funct) &&& 7 = funct := by
  refine ⟨?_, ?_, ?_, ?_, ?_⟩
  · rw [shr12, and_mask15]; omega
  · rw [shr9, and_mask7]; omega
  · rw [shr6, and_mask7]; omega
  · rw [shr3, and_mask7]; omega
  · rw [and_mask7]; omega

theorem extract_j (op addr : Nat) (hop : op < 16) (haddr : addr < 4096) :
    (op * 4096 + addr) >>> 12 &&& 15 = op ∧
    (op * 4096 + addr) &&& 4095 = addr := by
  refine ⟨?_, ?_⟩
  · rw [shr12, and_mask15]; omega
  · rw [and_mask4095]; omega

theorem natStr_single (n : Nat) (h : n < 10) : natStr n = [Char.ofNat (48 + n)] := by
  rw [natStr, natStrGo]
  simp [h]

theorem intStr_ofNat (n : Nat) : intStr (n : Int) = natStr n := by
  rw [intStr, if_neg (by omega)]
  simp

theorem intStr_safe (i : Int) : ∀ c ∈ intStr i, okChar c = true := by
  intro c hc
  rw [intStr] at hc
  split at hc
  · rcases List.mem_cons.mp hc with h | h
    · subst h; decide
    · exact okChar_digit c (natStr_all_digits _ c h)
  · exact okChar_digit c (natStr_all_digits _ c hc)

theorem intStr_ne_nil (i : Int) : intStr i ≠ [] := by
  rw [intStr]
  split
  · simp
  · rw [natStr]; exact natStrGo_ne_nil _ _ (by omega)

theorem isPrefixOf_two (a b : Char) (l : List Char)
    (h : ([a, b]).isPrefixOf l = true) : ∃ t, l = a :: b :: t := by
  match l with
  | [] => simp [List.isPrefixOf] at h
  | [x] => simp [List.isPrefixOf] at h
  | x :: y :: t =>
    simp [List.isPrefixOf] at h
    exact ⟨t, by rw [h.1, h.2]⟩

theorem intStr_not_hex (i : Int) :
    ("0x".toList.isPrefixOf (intStr i) ∨ "0X".toList.isPrefixOf (intStr i)) = False := by
  simp only [eq_iff_iff, iff_false]
  intro hpre
  rw [intStr] at hpre
  by_cases hi : i < 0
  · rw [if_pos hi] at hpre
    rcases hpre with h | h <;>
      · obtain ⟨t, ht⟩ := isPrefixOf_two _ _ _ h
        simp at ht
  · rw [if_neg hi] at hpre
    rcases hpre with h | h
    · obtain ⟨t, ht⟩ := isPrefixOf_two _ _ _ h
      have hx : 'x' ∈ natStr i.toNat := by rw [ht]; simp
      have hf := digitChar_facts 'x' (natStr_all_digits _ 'x' hx)
      exact absurd rfl hf.2.2.2.2.2.2.2.2.2.2.1
    · obtain ⟨t, ht⟩ := isPrefixOf_two _ _ _ h
      have hx : 'X' ∈ natStr i.toNat := by rw [ht]; simp
      have hf := digitChar_facts 'X' (natStr_all_digits _ 'X' hx)
      exact absurd rfl hf.2.2.2.2.2.2.2.2.2.2.2

theorem parse_register_digit (r : Nat) (h : r < 8) (ln : Nat) :
    parse_register ['$', 'r', Char.ofNat (48 + r)] ln = Except.ok r := by
  interval_cases r <;> rfl

theorem pyAnd_63_cast (n : Nat) : pyAnd (n : Int) 63 = ((n % 64 : Nat) : Int) := by
  show Int.land (Int.ofNat n) (Int.ofNat 63) = Int.ofNat (n % 64)
  rw [show Int.land (Int.ofNat n) (Int.ofNat 63) = Int.ofNat (n &&& 63) from rfl,
    and_mask63]

theorem parse_immediate_intStr (off : Int) (ln : Nat) (h1 : -32 ≤ off) (h2 : off ≤ 31) :
    parse_immediate (intStr off) ln 6 = Except.ok (off % 64).toNat := by
  have hps : pyStrip (intStr off) = intStr off :=
    pyStrip_all_safe _ (fun c hc => okChar_not_space c (intStr_safe off c hc))
  have hnp := intStr_not_hex off
  simp only [eq_iff_iff, iff_false] at hnp
  simp only [parse_immediate, hps]
  rw [if_neg hnp, pyIntDec_intStr off]
  simp only []
  norm_num
  rw [if_neg (by omega)]
  by_cases hneg : off < 0
  · rw [if_pos hneg]
    have hv : (64 : Int) + off = (((64 + off).toNat : Nat) : Int) := by omega
    rw [hv, pyAnd_63_cast]
    congr 1
    rw [Int.toNat_natCast]
    omega
  · rw [if_neg hneg]
    have hv : off = ((off.toNat : Nat) : Int) := by omega
    rw [hv, pyAnd_63_cast]
    congr 1

theorem parse_immediate_signed (imm ln : Nat) (h : imm < 64) :
    parse_immediate (intStr (if 32 ≤ imm then (imm : Int) - 64 else (imm : Int))) ln 6 =
      Except.ok imm := by
  by_cases h32 : 32 ≤ imm
  · rw [if_pos h32, parse_immediate_intStr _ ln (by omega) (by omega)]
    congr 1
    omega
  · rw [if_neg h32, parse_immediate_intStr _ ln (by omega) (by omega)]
    congr 1
    omega

theorem isDigit_ofNat (n : Nat) (h : n < 10) :
    isDigitChar (Char.ofNat (48 + n)) = true := by
  interval_cases n <;> decide

theorem regOperand_ok (n : Nat) (h : n < 10) :
    ∀ c ∈ ['$', 'r', Char.ofNat (48 + n)], okChar c = true := by
  intro c hc
  rcases List.mem_cons.mp hc with h1 | h1
  · subst h1; decide
  · rcases List.mem_cons.mp h1 with h2 | h2
    · subst h2; decide
    · rcases List.mem_cons.mp h2 with h3 | h3
      · subst h3; exact okChar_digit _ (isDigit_ofNat n h)
      · exact absurd h3 (by simp)

theorem roundtrip_r3 (M : List Char) (rs rt rd funct : Nat)
    (hrs : rs < 8) (hrt : rt < 8) (hrd : rd < 8) (hf : funct < 8)
    (hlv : lookupVal R_TYPE_FUNCT funct = some M)
    (hls : lookupStr R_TYPE_FUNCT M = some funct)
    (hMJR : M ≠ "JR".toList)
    (hM0 : M ≠ []) (hMok : ∀ c ∈ M, okChar c = true) (hMup : pyUpper M = M) :
    reassemble_line (disassemble (format04X (rs * 512 + rt * 64 + rd * 8 + funct))) =
      Except.ok (rs * 512 + rt * 64 + rd * 8 + funct) := by
  obtain ⟨e0, e1, e2, e3, e4⟩ := extract_r rs rt rd funct hrs hrt hrd hf
  have hdis : disassemble (format04X (rs * 512 + rt * 64 + rd * 8 + funct)) =
      M ++ ' ' :: joinComma [['$', 'r', Char.ofNat (48 + rd)],
        ['$', 'r', Char.ofNat (48 + rs)], ['$', 'r', Char.ofNat (48 + rt)]] := by
    simp only [disassemble, pyIntHex_format04X, e0, e1, e2, e3, e4]
    rw [hlv]
    simp only [Option.getD_some, if_pos rfl, if_neg hMJR]
    rw [natStr_single rd (by omega), natStr_single rs (by omega),
        natStr_single rt (by omega)]
    simp [joinComma]
  rw [hdis, reassemble_line,
      tokenize_join M _ hM0 hMok hMup (by simp) (by simp)
        (by
          intro op hop c hc
          rcases List.mem_cons.mp hop with h1 | h1
          · exact regOperand_ok rd (by omega) c (h1 ▸ hc)
          · rcases List.mem_cons.mp h1 with h2 | h2
            · exact regOperand_ok rs (by omega) c (h2 ▸ hc)
            · rcases List.mem_cons.mp h2 with h3 | h3
              · exact regOperand_ok rt (by omega) c (h3 ▸ hc)
              · exact absurd h3 (by simp))]
  simp only [encode_instruction, hls]
  rw [if_neg hMJR]
  simp only [List.length_cons, List.length_nil]
  norm_num
  rw [parse_register_digit rd hrd 1, parse_register_digit rs hrs 1,
      parse_register_digit rt hrt 1, ebind_ok, ebind_ok]
  simp only [Except.map_ok]
  rw [encode_r_type_eq rs rt rd funct hrt hrd hf]

theorem roundtrip_jr (rs : Nat) (hrs : rs < 8) :
    reassemble_line (disassemble (format04X (rs * 512 + 5))) =
      Except.ok (rs * 512 + 5) := by
  obtain ⟨e0, e1, e2, e3, e4⟩ := extract_r rs 0 0 5 hrs (by omega) (by omega) (by omega)
  simp only [Nat.mul_zero, Nat.zero_mul, Nat.add_zero, Nat.zero_add] at e0 e1 e2 e3 e4
  have hdis : disassemble (format04X (rs * 512 + 5)) =
      "JR".toList ++ ' ' :: joinComma [['$', 'r', Char.ofNat (48 + rs)]] := by
    simp only [disassemble, pyIntHex_format04X, e0, e1, e2, e3, e4]
    rw [show lookupVal R_TYPE_FUNCT 5 = some ("JR".toList) from rfl]
    norm_num
    rw [natStr_single rs (by omega)]
    simp [joinComma]
  rw [hdis, reassemble_line,
      tokenize_join _ _ (by decide) (by decide) (by decide) (by simp) (by simp)
        (by
          intro op hop c hc
          rcases List.mem_cons.mp hop with h1 | h1
          · exact regOperand_ok rs (by omega) c (h1 ▸ hc)
          · exact absurd h1 (by simp))]
  simp only [encode_instruction]
  rw [show lookupStr R_TYPE_FUNCT ("JR".toList) = some 5 from rfl]
  norm_num
  rw [parse_register_digit rs hrs 1]
  simp only [Except.map_ok]
  rw [encode_r_type_eq rs 0 0 5 (by omega) (by omega) (by omega)]

theorem and32_cases (imm : Nat) (h : imm < 64) :
    imm &&& 32 = if 32 ≤ imm then 32 else 0 := by
  interval_cases imm <;> decide

theorem roundtrip_iarith (M : List Char) (op rs rt imm : Nat)
    (hop1 : 1 ≤ op) (hop2 : op ≤ 8)
    (hrs : rs < 8) (hrt : rt < 8) (himm : imm < 64)
    (hlv : lookupVal I_TYPE_OPCODES op = some M)
    (hls : lookupStr I_TYPE_OPCODES M = some op)
    (hR : lookupStr R_TYPE_FUNCT M = none)
    (hMLW : M ≠ "LW".toList) (hMSW : M ≠ "SW".toList)
    (hMBEQ : M ≠ "BEQ".toList) (hMBNQ : M ≠ "BNQ".toList)
    (hM0 : M ≠ []) (hMok : ∀ c ∈ M, okChar c = true) (hMup : pyUpper M = M) :
    reassemble_line (disassemble (format04X (op * 4096 + rs * 512 + rt * 64 + imm))) =
      Except.ok (op * 4096 + rs * 512 + rt * 64 + imm) := by
  obtain ⟨e0, e1, e2, e3⟩ :=
    extract_i op rs rt imm (by omega) hrs hrt himm
  have hdis : disassemble (format04X (op * 4096 + rs * 512 + rt * 64 + imm)) =
      M ++ ' ' :: joinComma [['$', 'r', Char.ofNat (48 + rt)],
        ['$', 'r', Char.ofNat (48 + rs)],
        intStr (if 32 ≤ imm then (imm : Int) - 64 else (imm : Int))] := by
    simp only [disassemble, pyIntHex_format04X, e0, e1, e2, e3]
    rw [if_neg (by omega), if_neg (by omega), hlv]
    simp only [Option.getD_some, if_neg hMLW, if_neg hMSW, if_neg hMBEQ, if_neg hMBNQ]
    rw [if_neg (by rintro (h | h); exacts [hMLW h, hMSW h]),
        if_neg (by rintro (h | h); exacts [hMBEQ h, hMBNQ h])]
    have himm32 : ((if 32 ≤ imm then 32 else 0 : Nat) ≠ 0) = (32 ≤ imm) := by
      by_cases h32 : 32 ≤ imm <;> simp [h32]
    simp only [and32_cases imm himm, himm32]
    rw [natStr_single rt (by omega), natStr_single rs (by omega)]
    simp [joinComma]
  rw [hdis, reassemble_line,
      tokenize_join M _ hM0 hMok hMup (by simp)
        (by
          intro o ho
          rcases List.mem_cons.mp ho with h1 | h1
          · simp [h1]
          · rcases List.mem_cons.mp h1 with h2 | h2
            · simp [h2]
            · rcases List.mem_cons.mp h2 with h3 | h3
              · rw [h3]; exact intStr_ne_nil _
              · exact absurd h3 (by simp))
        (by
          intro o ho c hc
          rcases List.mem_cons.mp ho with h1 | h1
          · exact regOperand_ok rt (by omega) c (h1 ▸ hc)
          · rcases List.mem_cons.mp h1 with h2 | h2
            · exact regOperand_ok rs (by omega) c (h2 ▸ hc)
            · rcases List.mem_cons.mp h2 with h3 | h3
              · exact intStr_safe _ c (h3 ▸ hc)
              · exact absurd h3 (by simp))]
  simp only [encode_instruction, hR, hls]
  rw [if_neg (by rintro (h | h); exacts [hMLW h, hMSW h]),
      if_neg (by rintro (h | h); exacts [hMBEQ h, hMBNQ h])]
  norm_num
  rw [parse_register_digit rt hrt 1, ebind_ok, parse_register_digit rs hrs 1, ebind_ok,
      parse_immediate_signed imm 1 himm]
  simp only [Except.map_ok]
  rw [encode_i_type_eq op rs rt imm hrs hrt himm]

theorem intStr_strip_minus (i : Int) :
    (intStr i).dropWhile (fun c => c = '-') =
      if i < 0 then natStr (-i).toNat else natStr i.toNat := by
  rw [intStr]
  by_cases hi : i < 0
  · rw [if_pos hi, if_pos hi, List.dropWhile_cons]
    simp only [decide_True, if_true]
    exact dropWhile_all_false _ (fun c hc => by
      have hf := digitChar_facts c (natStr_all_digits _ c hc)
      simp only [decide_eq_false_iff_not]
      exact hf.2.2.2.2.1)
  · rw [if_neg hi, if_neg hi]
    exact dropWhile_all_false _ (fun c hc => by
      have hf := digitChar_facts c (natStr_all_digits _ c hc)
      simp only [decide_eq_false_iff_not]
      exact hf.2.2.2.2.1)

theorem pyStrip_intStr (i : Int) : pyStrip (intStr i) = intStr i :=
  pyStrip_all_safe _ (fun c hc => okChar_not_space c (intStr_safe i c hc))

theorem roundtrip_branch (M : List Char) (op rs rt imm : Nat)
    (hop1 : 1 ≤ op) (hop2 : op ≤ 8)
    (hrs : rs < 8) (hrt : rt < 8) (himm : imm < 64)
    (hlv : lookupVal I_TYPE_OPCODES op = some M)
    (hls : lookupStr I_TYPE_OPCODES M = some op)
    (hR : lookupStr R_TYPE_FUNCT M = none)
    (hMLW : M ≠ "LW".toList) (hMSW : M ≠ "SW".toList)
    (hMB : M = "BEQ".toList ∨ M = "BNQ".toList)
    (hM0 : M ≠ []) (hMok : ∀ c ∈ M, okChar c = true) (hMup : pyUpper M = M) :
    reassemble_line (disassemble (format04X (op * 4096 + rs * 512 + rt * 64 + imm))) =
      Except.ok (op * 4096 + rs * 512 + rt * 64 + imm) := by
  obtain ⟨e0, e1, e2, e3⟩ :=
    extract_i op rs rt imm (by omega) hrs hrt himm
  have hdis : disassemble (format04X (op * 4096 + rs * 512 + rt * 64 + imm)) =
      M ++ ' ' :: joinComma [['$', 'r', Char.ofNat (48 + rs)],
        ['$', 'r', Char.ofNat (48 + rt)],
        intStr (if 32 ≤ imm then (imm : Int) - 64 else (imm : Int))] := by
    simp only [disassemble, pyIntHex_format04X, e0, e1, e2, e3]
    rw [if_neg (by omega), if_neg (by omega), hlv]
    simp only [Option.getD_some]
    rw [if_neg (by rintro (h | h); exacts [hMLW h, hMSW h]),
        if_pos hMB]
    have himm32 : ((if 32 ≤ imm then 32 else 0 : Nat) ≠ 0) = (32 ≤ imm) := by
      by_cases h32 : 32 ≤ imm <;> simp [h32]
    simp only [and32_cases imm himm, himm32]
    rw [natStr_single rt (by omega), natStr_single rs (by omega)]
    simp [joinComma]
  have hstrip : ∀ i : Int, -32 ≤ i → i ≤ 31 →
      ((intStr i).dropWhile (fun c => c = '-') ≠ [] ∧
        ((intStr i).dropWhile (fun c => c = '-')).all isDigitChar) := by
    intro i hi1 hi2
    rw [intStr_strip_minus]
    by_cases hi : i < 0
    · rw [if_pos hi]
      refine ⟨by rw [natStr]; exact natStrGo_ne_nil _ _ (by omega), ?_⟩
      exact List.all_eq_true.mpr (fun c hc => natStr_all_digits _ c hc)
    · rw [if_neg hi]
      refine ⟨by rw [natStr]; exact natStrGo_ne_nil _ _ (by omega), ?_⟩
      exact List.all_eq_true.mpr (fun c hc => natStr_all_digits _ c hc)
  rw [hdis, reassemble_line,
      tokenize_join M _ hM0 hMok hMup (by simp)
        (by
          intro o ho
          rcases List.mem_cons.mp ho with h1 | h1
          · simp [h1]
          · rcases List.mem_cons.mp h1 with h2 | h2
            · simp [h2]
            · rcases List.mem_cons.mp h2 with h3 | h3
              · rw [h3]; exact intStr_ne_nil _
              · exact absurd h3 (by simp))
        (by
          intro o ho c hc
          rcases List.mem_cons.mp ho with h1 | h1
          · exact regOperand_ok rs (by omega) c (h1 ▸ hc)
          · rcases List.mem_cons.mp h1 with h2 | h2
            · exact regOperand_ok rt (by omega) c (h2 ▸ hc)
            · rcases List.mem_cons.mp h2 with h3 | h3
              · exact intStr_safe _ c (h3 ▸ hc)
              · exact absurd h3 (by simp))]
  simp only [encode_instruction, hR, hls]
  rw [if_neg (by rintro (h | h); exacts [hMLW h, hMSW h]),
      if_pos hMB, if_neg (by simp)]
  simp only [List.getD_cons_zero, List.getD_cons_succ]
  rw [parse_register_digit rs hrs 1, parse_register_digit rt hrt 1]
  simp only [ebind_ok]
  rw [pyStrip_intStr]
  rw [show lookupStr ([] : List (List Char × Nat))
    (intStr (if 32 ≤ imm then (imm : Int) - 64 else (imm : Int))) = none from rfl]
  simp only []
  rw [if_pos (hstrip _ (by split <;> omega) (by split <;> omega))]
  rw [pyIntDec_intStr]
  simp only []
  rw [show (pure (Except.ok (if 32 ≤ imm then (imm : Int) - 64 else (imm : Int))) :
    Except AsmError (Except AsmError Int)) = Except.ok (Except.ok
      (if 32 ≤ imm then (imm : Int) - 64 else (imm : Int))) from rfl]
  simp only [ebind_ok]
  rw [parse_immediate_signed imm 1 himm]
  simp only [ebind_ok]
  rw [encode_i_type_eq op rs rt imm hrs hrt himm]
  rfl

theorem memOperandMatch_digits (D : List Char) (hD0 : D ≠ [])
    (hDdig : ∀ c ∈ D, isDigitChar c = true) (r : Nat) (hr : r < 10) :
    memOperandMatch (D ++ '(' :: '$' :: 'r' :: Char.ofNat (48 + r) :: [')']) =
      some (D, ['$', 'r', Char.ofNat (48 + r)]) := by
  obtain ⟨c, cs, hD⟩ := List.exists_cons_of_ne_nil hD0
  have hcne : c ≠ '-' := by
    have := digitChar_facts c (hDdig c (by simp [hD]))
    exact this.2.2.2.2.1
  have hhead : (D ++ '(' :: '$' :: 'r' :: Char.ofNat (48 + r) :: [')']).head? = some c := by
    rw [hD]; rfl
  have htake : (D ++ '(' :: '$' :: 'r' :: Char.ofNat (48 + r) :: [')']).takeWhile
      isDigitChar = D :=
    takeWhile_append_stop D '(' _ hDdig (by decide)
  have hdrop : (D ++ '(' :: '$' :: 'r' :: Char.ofNat (48 + r) :: [')']).drop
      D.length = '(' :: '$' :: 'r' :: Char.ofNat (48 + r) :: [')'] :=
    List.drop_left D _
  simp only [memOperandMatch, hhead]
  rw [show (decide (some c = some '-')) = false by simp [hcne]]
  simp only [Bool.false_eq_true, if_false]
  rw [htake, if_neg hD0, hdrop]
  simp [List.dropWhile_cons, isPySpace, isDigit_ofNat r hr]

theorem memOperandMatch_neg_digits (D : List Char) (hD0 : D ≠ [])
    (hDdig : ∀ c ∈ D, isDigitChar c = true) (r : Nat) (hr : r < 10) :
    memOperandMatch ('-' :: (D ++ '(' :: '$' :: 'r' :: Char.ofNat (48 + r) :: [')'])) =
      some ('-' :: D, ['$', 'r', Char.ofNat (48 + r)]) := by
  have htake : (D ++ '(' :: '$' :: 'r' :: Char.ofNat (48 + r) :: [')']).takeWhile
      isDigitChar = D :=
    takeWhile_append_stop D '(' _ hDdig (by decide)
  have hdrop : (D ++ '(' :: '$' :: 'r' :: Char.ofNat (48 + r) :: [')']).drop
      D.length = '(' :: '$' :: 'r' :: Char.ofNat (48 + r) :: [')'] :=
    List.drop_left D _
  simp only [memOperandMatch, List.head?_cons, decide_True, eq_self_iff_true,
    if_true, List.tail_cons]
  rw [htake, if_neg hD0, hdrop]
  simp [List.dropWhile_cons, isPySpace, isDigit_ofNat r hr]

theorem memOperandMatch_intStr (i : Int) (r : Nat) (hr : r < 10) :
    memOperandMatch (intStr i ++ '(' :: '$' :: 'r' :: Char.ofNat (48 + r) :: [')']) =
      some (intStr i, ['$', 'r', Char.ofNat (48 + r)]) := by
  by_cases hi : i < 0
  · rw [intStr, if_pos hi, List.cons_append]
    exact memOperandMatch_neg_digits _
      (by rw [natStr]; exact natStrGo_ne_nil _ _ (by omega))
      (fun c hc => natStr_all_digits _ c hc) r hr
  · rw [intStr, if_neg hi]
    exact memOperandMatch_digits _
      (by rw [natStr]; exact natStrGo_ne_nil _ _ (by omega))
      (fun c hc => natStr_all_digits _ c hc) r hr

theorem roundtrip_mem (M : List Char) (op rs rt imm : Nat)
    (hop1 : 1 ≤ op) (hop2 : op ≤ 8)
    (hrs : rs < 8) (hrt : rt < 8) (himm : imm < 64)
    (hlv : lookupVal I_TYPE_OPCODES op = some M)
    (hls : lookupStr I_TYPE_OPCODES M = some op)
    (hR : lookupStr R_TYPE_FUNCT M = none)
    (hMB : M = "LW".toList ∨ M = "SW".toList)
    (hM0 : M ≠ []) (hMok : ∀ c ∈ M, okChar c = true) (hMup : pyUpper M = M) :
    reassemble_line (disassemble (format04X (op * 4096 + rs * 512 + rt * 64 + imm))) =
      Except.ok (op * 4096 + rs * 512 + rt * 64 + imm) := by
  obtain ⟨e0, e1, e2, e3⟩ :=
    extract_i op rs rt imm (by omega) hrs hrt himm
  have hdis : disassemble (format04X (op * 4096 + rs * 512 + rt * 64 + imm)) =
      M ++ ' ' :: joinComma [['$', 'r', Char.ofNat (48 + rt)],
        intStr (if 32 ≤ imm then (imm : Int) - 64 else (imm : Int)) ++
          '(' :: '$' :: 'r' :: Char.ofNat (48 + rs) :: [')']] := by
    simp only [disassemble, pyIntHex_format04X, e0, e1, e2, e3]
    rw [if_neg (by omega), if_neg (by omega), hlv]
    simp only [Option.getD_some]
    rw [if_pos hMB]
    have himm32 : ((if 32 ≤ imm then 32 else 0 : Nat) ≠ 0) = (32 ≤ imm) := by
      by_cases h32 : 32 ≤ imm <;> simp [h32]
    simp only [and32_cases imm himm, himm32]
    rw [natStr_single rt (by omega), natStr_single rs (by omega)]
    simp [joinComma]
  rw [hdis, reassemble_line,
      tokenize_join M _ hM0 hMok hMup (by simp)
        (by
          intro o ho
          rcases List.mem_cons.mp ho with h1 | h1
          · simp [h1]
          · rcases List.mem_cons.mp h1 with h2 | h2
            · rw [h2]
              intro hc
              exact intStr_ne_nil _ (List.append_eq_nil.mp hc).1
            · exact absurd h2 (by simp))
        (by
          intro o ho c hc
          rcases List.mem_cons.mp ho with h1 | h1
          · exact regOperand_ok rt (by omega) c (h1 ▸ hc)
          · rcases List.mem_cons.mp h1 with h2 | h2
            · subst h2
              rcases List.mem_append.mp hc with h3 | h3
              · exact intStr_safe _ c h3
              · rcases List.mem_cons.mp h3 with h4 | h4
                · subst h4; decide
                · rcases List.mem_cons.mp h4 with h5 | h5
                  · subst h5; decide
                  · rcases List.mem_cons.mp h5 with h6 | h6
                    · subst h6; decide
                    · rcases List.mem_cons.mp h6 with h7 | h7
                      · subst h7
                        exact okChar_digit _ (isDigit_ofNat rs (by omega))
                      · rcases List.mem_cons.mp h7 with h8 | h8
                        · subst h8; decide
                        · exact absurd h8 (by simp)
            · exact absurd h2 (by simp))]
  simp only [encode_instruction, hR, hls]
  rw [if_pos hMB, if_pos (by simp)]
  simp only [List.getD_cons_zero, List.getD_cons_succ]
  rw [parse_register_digit rt hrt 1]
  simp only [ebind_ok]
  rw [memOperandMatch_intStr _ rs (by omega)]
  simp only []
  rw [parse_immediate_signed imm 1 himm]
  simp only [ebind_ok]
  rw [parse_register_digit rs hrs 1]
  simp only [ebind_ok]
  rw [encode_i_type_eq op rs rt imm hrs hrt himm]
  rfl

theorem roundtrip_j_core (M : List Char) (op addr : Nat) (haddr : addr < 4096)
    (hop : op = 9 ∨ op = 10)
    (hinstr : (if op = 9 then "JUMP".toList else "JAL".toList) = M)
    (hR : lookupStr R_TYPE_FUNCT M = none)
    (hI : lookupStr I_TYPE_OPCODES M = none)
    (hJ : lookupStr J_TYPE_OPCODES M = some op)
    (hM0 : M ≠ []) (hMok : ∀ c ∈ M, okChar c = true) (hMup : pyUpper M = M) :
    reassemble_line (disassemble (format04X (op * 4096 + addr))) =
      Except.ok (op * 4096 + addr) := by
  obtain ⟨e0, e1⟩ := extract_j op addr (by rcases hop with h | h <;> omega) haddr
  have hdis : disassemble (format04X (op * 4096 + addr)) =
      M ++ ' ' :: joinComma [natStr addr] := by
    simp only [disassemble, pyIntHex_format04X, e0, e1]
    rw [if_neg (by rcases hop with h | h <;> omega), if_pos hop, hinstr]
    simp [joinComma]
  rw [hdis, reassemble_line,
      tokenize_join M _ hM0 hMok hMup (by simp)
        (by
          intro o ho
          rcases List.mem_cons.mp ho with h1 | h1
          · rw [h1, natStr]; exact natStrGo_ne_nil _ _ (by omega)
          · exact absurd h1 (by simp))
        (by
          intro o ho c hc
          rcases List.mem_cons.mp ho with h1 | h1
          · exact okChar_digit c (natStr_all_digits _ c (h1 ▸ hc))
          · exact absurd h1 (by simp))]
  simp only [encode_instruction, hR, hI, hJ]
  rw [if_neg (by simp)]
  simp only [List.getD_cons_zero]
  rw [← intStr_ofNat addr, pyStrip_intStr]
  rw [show lookupStr ([] : List (List Char × Nat)) (intStr ((addr : Nat) : Int)) =
    none from rfl]
  simp only []
  rw [if_neg (by
    have := intStr_not_hex ((addr : Nat) : Int)
    simp only [eq_iff_iff, iff_false] at this
    exact this)]
  rw [pyIntDec_intStr]
  simp only []
  rw [if_neg (by omega)]
  rw [show ((addr : Int)).toNat = addr from Int.toNat_natCast addr]
  rw [encode_j_type_eq op addr haddr]

theorem lookupStr_mem (tbl : List (List Char × Nat)) (k : List Char) (v : Nat)
    (h : lookupStr tbl k = some v) : ∃ k1, (k1, v) ∈ tbl := by
  induction tbl with
  | nil => exact absurd h (by simp [lookupStr])
  | cons p rest ih =>
    obtain ⟨k1, v1⟩ := p
    rw [lookupStr] at h
    by_cases hk : k1 = k
    · rw [if_pos hk] at h
      have : v1 = v := by injection h
      exact ⟨k1, by simp [this]⟩
    · rw [if_neg hk] at h
      obtain ⟨k2, hk2⟩ := ih h
      exact ⟨k2, by simp [hk2]⟩

theorem parse_register_lt (reg : List Char) (ln n : Nat)
    (h : parse_register reg ln = Except.ok n) : n < 8 := by
  rw [parse_register] at h
  cases hl : lookupStr REGISTERS (pyLower (pyStrip reg)) with
  | none => rw [hl] at h; exact Except.noConfusion h
  | some m =>
    rw [hl] at h
    have hm : m = n := by injection h
    subst hm
    obtain ⟨k1, hmem⟩ := lookupStr_mem _ _ _ hl
    have hall : ∀ p ∈ REGISTERS, p.2 < 8 := by decide
    exact hall (k1, m) hmem

theorem parse_immediate_lt (s : List Char) (ln n : Nat)
    (h : parse_immediate s ln 6 = Except.ok n) : n < 64 := by
  simp only [parse_immediate] at h
  split at h
  · exact Except.noConfusion h
  · split at h
    · exact Except.noConfusion h
    · next value hval hrange =>
      have hn : (pyAnd (if value < 0 then 2 ^ 6 + value else value)
          ((2 : Int) ^ 6 - 1)).toNat = n := by injection h
      have hb : (0 : Int) ≤ value ∨ value < 0 := by omega
      have hr : -(2 ^ (6 - 1) : Int) ≤ value ∧ value ≤ 2 ^ (6 - 1) - 1 := by
        push_neg at hrange
        omega
      norm_num at hr
      by_cases hneg : value < 0
      · rw [if_pos hneg] at hn
        have hv : (2 : Int) ^ 6 + value = (((64 + value).toNat : Nat) : Int) := by
          norm_num
          omega
        rw [hv, show ((2 : Int) ^ 6 - 1) = 63 by norm_num, pyAnd_63_cast] at hn
        rw [Int.toNat_natCast] at hn
        omega
      · rw [if_neg hneg] at hn
        have hv : value = ((value.toNat : Nat) : Int) := by omega
        rw [hv, show ((2 : Int) ^ 6 - 1) = 63 by norm_num, pyAnd_63_cast] at hn
        rw [Int.toNat_natCast] at hn
        omega

theorem lookupStr_R_cases (M : List Char) (f : Nat)
    (h : lookupStr R_TYPE_FUNCT M = some f) :
    (M = "ADD".toList ∧ f = 0) ∨ (M = "SUB".toList ∧ f = 1) ∨
    (M = "AND".toList ∧ f = 2) ∨ (M = "OR".toList ∧ f = 3) ∨
    (M = "SLT".toList ∧ f = 4) ∨ (M = "JR".toList ∧ f = 5) := by
  simp only [R_TYPE_FUNCT, lookupStr] at h
  repeat' split at h
  all_goals simp_all

theorem lookupStr_I_cases (M : List Char) (f : Nat)
    (h : lookupStr I_TYPE_OPCODES M = some f) :
    (M = "LW".toList ∧ f = 1) ∨ (M = "SW".toList ∧ f = 2) ∨
    (M = "ADDI".toList ∧ f = 3) ∨ (M = "SUBI".toList ∧ f = 4) ∨
    (M = "SLTI".toList ∧ f = 5) ∨ (M = "BEQ".toList ∧ f = 6) ∨
    (M = "BNQ".toList ∧ f = 7) ∨ (M = "ANDI".toList ∧ f = 8) := by
  simp only [I_TYPE_OPCODES, lookupStr] at h
  repeat' split at h
  all_goals simp_all

theorem lookupStr_J_cases (M : List Char) (f : Nat)
    (h : lookupStr J_TYPE_OPCODES M = some f) :
    (M = "JUMP".toList ∧ f = 9) ∨ (M = "JAL".toList ∧ f = 10) := by
  simp only [J_TYPE_OPCODES, lookupStr] at h
  repeat' split at h
  all_goals simp_all

theorem branch_offset_inv (op rs rt ln w : Nat)
    (X : Except AsmError (Except AsmError Int))
    (h : (X >>= fun offset =>
      match offset with
      | Except.error e => Except.error e
      | Except.ok off => do
        let imm ← parse_immediate (intStr off) ln 6
        return encode_i_type op rs rt imm) = Except.ok w) :
    ∃ imm, imm < 64 ∧ encode_i_type op rs rt imm = w := by
  cases X with
  | error e =>
    rw [show ((Except.error e : Except AsmError (Except AsmError Int)) >>= fun offset =>
      match offset with
      | Except.error e => Except.error e
      | Except.ok off => do
        let imm ← parse_immediate (intStr off) ln 6
        return encode_i_type op rs rt imm) =
        (Except.error e : Except AsmError Nat) from rfl] at h
    exact Except.noConfusion h
  | ok offE =>
    rw [ebind_ok] at h
    cases offE with
    | error e => exact Except.noConfusion h
    | ok off =>
      simp only [] at h
      cases hpi : parse_immediate (intStr off) ln 6 with
      | error e => rw [hpi] at h; exact Except.noConfusion h
      | ok imm =>
        rw [hpi] at h
        simp only [ebind_ok] at h
        refine ⟨imm, parse_immediate_lt _ _ _ hpi, ?_⟩
        rw [show (pure (encode_i_type op rs rt imm) : Except AsmError Nat) =
          Except.ok (encode_i_type op rs rt imm) from rfl] at h
        injection h

theorem encode_mem_inv (op ln w : Nat) (operands : List (List Char))
    (h : (if operands.length = 2 then do
        let rt ← parse_register (operands.getD 0 []) ln
        match memOperandMatch (operands.getD 1 []) with
        | some (g1, g2) => do
          let imm ← parse_immediate g1 ln 6
          let rs ← parse_register g2 ln
          return encode_i_type op rs rt imm
        | none => Except.error (AsmError.badMemOperand ln)
      else if operands.length = 3 then do
        let rt ← parse_register (operands.getD 0 []) ln
        let rs ← parse_register (operands.getD 1 []) ln
        let imm ← parse_immediate (operands.getD 2 []) ln 6
        return encode_i_type op rs rt imm
      else Except.error (AsmError.wrongOperandCount ln)) = Except.ok w) :
    ∃ rs rt imm, rs < 8 ∧ rt < 8 ∧ imm < 64 ∧ encode_i_type op rs rt imm = w := by
  split at h
  · cases hp0 : parse_register (operands.getD 0 []) ln with
    | error e => rw [hp0] at h; exact Except.noConfusion h
    | ok rt =>
    rw [hp0] at h
    simp only [ebind_ok] at h
    cases hmm : memOperandMatch (operands.getD 1 []) with
    | none => rw [hmm] at h; exact Except.noConfusion h
    | some g =>
    obtain ⟨g1, g2⟩ := g
    rw [hmm] at h
    simp only [] at h
    cases hpi : parse_immediate g1 ln 6 with
    | error e => rw [hpi] at h; exact Except.noConfusion h
    | ok imm =>
    rw [hpi] at h
    simp only [ebind_ok] at h
    cases hp2 : parse_register g2 ln with
    | error e => rw [hp2] at h; exact Except.noConfusion h
    | ok rs =>
    rw [hp2] at h
    exact ⟨rs, rt, imm, parse_register_lt _ _ _ hp2, parse_register_lt _ _ _ hp0,
      parse_immediate_lt _ _ _ hpi,
      by injection (show Except.ok (encode_i_type op rs rt imm) = Except.ok w from h)⟩
  · split at h
    · cases hp0 : parse_register (operands.getD 0 []) ln with
      | error e => rw [hp0] at h; exact Except.noConfusion h
      | ok rt =>
      rw [hp0] at h
      simp only [ebind_ok] at h
      cases hp1 : parse_register (operands.getD 1 []) ln with
      | error e => rw [hp1] at h; exact Except.noConfusion h
      | ok rs =>
      rw [hp1] at h
      simp only [ebind_ok] at h
      cases hpi : parse_immediate (operands.getD 2 []) ln 6 with
      | error e => rw [hpi] at h; exact Except.noConfusion h
      | ok imm =>
      rw [hpi] at h
      exact ⟨rs, rt, imm, parse_register_lt _ _ _ hp1, parse_register_lt _ _ _ hp0,
        parse_immediate_lt _ _ _ hpi,
        by injection (show Except.ok (encode_i_type op rs rt imm) = Except.ok w from h)⟩
    · exact Except.noConfusion h

theorem encode_arith_inv (op ln w : Nat) (operands : List (List Char))
    (h : (if operands.length ≠ 3 then Except.error (AsmError.wrongOperandCount ln)
      else do
        let rt ← parse_register (operands.getD 0 []) ln
        let rs ← parse_register (operands.getD 1 []) ln
        let imm ← parse_immediate (operands.getD 2 []) ln 6
        return encode_i_type op rs rt imm) = Except.ok w) :
    ∃ rs rt imm, rs < 8 ∧ rt < 8 ∧ imm < 64 ∧ encode_i_type op rs rt imm = w := by
  split at h
  · exact Except.noConfusion h
  · cases hp0 : parse_register (operands.getD 0 []) ln with
    | error e => rw [hp0] at h; exact Except.noConfusion h
    | ok rt =>
    rw [hp0] at h
    simp only [ebind_ok] at h
    cases hp1 : parse_register (operands.getD 1 []) ln with
    | error e => rw [hp1] at h; exact Except.noConfusion h
    | ok rs =>
    rw [hp1] at h
    simp only [ebind_ok] at h
    cases hpi : parse_immediate (operands.getD 2 []) ln 6 with
    | error e => rw [hpi] at h; exact Except.noConfusion h
    | ok imm =>
    rw [hpi] at h
    exact ⟨rs, rt, imm, parse_register_lt _ _ _ hp1, parse_register_lt _ _ _ hp0,
      parse_immediate_lt _ _ _ hpi,
      by injection (show Except.ok (encode_i_type op rs rt imm) = Except.ok w from h)⟩

theorem imm_tail_inv (op rs rt ln w : Nat) (s : List Char)
    (h : (parse_immediate s ln 6 >>= fun imm =>
      pure (encode_i_type op rs rt imm)) = Except.ok w) :
    ∃ imm, imm < 64 ∧ encode_i_type op rs rt imm = w := by
  cases hpi : parse_immediate s ln 6 with
  | error e => rw [hpi] at h; exact Except.noConfusion h
  | ok imm =>
    rw [hpi, ebind_ok] at h
    exact ⟨imm, parse_immediate_lt _ _ _ hpi,
      by injection (show Except.ok (encode_i_type op rs rt imm) = Except.ok w from h)⟩

theorem encode_br_inv (op ln w addr : Nat) (operands : List (List Char))
    (labels : List (List Char × Nat))
    (h : (if operands.length ≠ 3 then Except.error (AsmError.wrongOperandCount ln)
      else do
        let rs ← parse_register (operands.getD 0 []) ln
        let rt ← parse_register (operands.getD 1 []) ln
        let target := pyStrip (operands.getD 2 [])
        let offset : Except AsmError Int ←
          match lookupStr labels target with
          | some a => pure (Except.ok ((a : Int) - ((addr : Int) + 1)))
          | none =>
            let stripped := target.dropWhile (fun c => c = '-')
            if stripped ≠ [] ∧ stripped.all isDigitChar then
              match pyIntDec target with
              | some v => pure (Except.ok v)
              | none => pure (Except.error (AsmError.uncaughtValueError ln))
            else if "0x".toList.isPrefixOf target then
              match pyIntHex target with
              | some v => pure (Except.ok (v : Int))
              | none => pure (Except.error (AsmError.uncaughtValueError ln))
            else pure (Except.ok 0)
        match offset with
        | Except.error e => Except.error e
        | Except.ok off => do
          let imm ← parse_immediate (intStr off) ln 6
          return encode_i_type op rs rt imm) = Except.ok w) :
    ∃ rs rt imm, rs < 8 ∧ rt < 8 ∧ imm < 64 ∧ encode_i_type op rs rt imm = w := by
  split at h
  · exact Except.noConfusion h
  · cases hp0 : parse_register (operands.getD 0 []) ln with
    | error e => rw [hp0] at h; exact Except.noConfusion h
    | ok rs =>
    rw [hp0] at h
    simp only [ebind_ok] at h
    cases hp1 : parse_register (operands.getD 1 []) ln with
    | error e => rw [hp1] at h; exact Except.noConfusion h
    | ok rt =>
    rw [hp1] at h
    simp only [ebind_ok] at h
    have hfin : ∃ imm, imm < 64 ∧ encode_i_type op rs rt imm = w := by
      split at h
      · exact imm_tail_inv op rs rt ln w _ h
      · split at h
        · split at h
          · exact imm_tail_inv op rs rt ln w _ h
          · exact Except.noConfusion (show (Except.error
              (AsmError.uncaughtValueError ln) : Except AsmError Nat) =
              Except.ok w from h)
        · split at h
          · split at h
            · exact imm_tail_inv op rs rt ln w _ h
            · exact Except.noConfusion (show (Except.error
                (AsmError.uncaughtValueError ln) : Except AsmError Nat) =
                Except.ok w from h)
          · exact imm_tail_inv op rs rt ln w (intStr 0) h
    obtain ⟨imm, himm, hw⟩ := hfin
    exact ⟨rs, rt, imm, parse_register_lt _ _ _ hp0, parse_register_lt _ _ _ hp1,
      himm, hw⟩

theorem encode_j_inv (op ln w : Nat) (operands : List (List Char))
    (labels : List (List Char × Nat))
    (h : (if operands.length ≠ 1 then Except.error (AsmError.wrongOperandCount ln)
      else
        let target := pyStrip (operands.getD 0 [])
        let address? : Except AsmError Int :=
          match lookupStr labels target with
          | some a => Except.ok (a : Int)
          | none =>
            if "0x".toList.isPrefixOf target ∨ "0X".toList.isPrefixOf target then
              match pyIntHex target with
              | some v => Except.ok (v : Int)
              | none => Except.error (AsmError.undefinedLabel ln)
            else
              match pyIntDec target with
              | some v => Except.ok v
              | none => Except.error (AsmError.undefinedLabel ln)
        match address? with
        | Except.error e => Except.error e
        | Except.ok address =>
          if address < 0 ∨ (0xFFF : Int) < address then
            Except.error (AsmError.jumpOutOfRange ln)
          else Except.ok (encode_j_type op address.toNat)) = Except.ok w) :
    ∃ a, a < 4096 ∧ encode_j_type op a = w := by
  split at h
  · exact Except.noConfusion h
  · simp only [] at h
    split at h
    · exact Except.noConfusion h
    · next address heq =>
      split at h
      · exact Except.noConfusion h
      · next hrange =>
        refine ⟨address.toNat, by push_neg at hrange; omega, ?_⟩
        injection h




/-- C2: every machine word the assembler produces for a valid instruction
round-trips through the disassembler: re-assembling the disassembled text as
a single line at address 0 with an empty label table yields the same word. -/
theorem C2_assembler_roundtrip (instr : List Char) (ops : List (List Char))
    (labels : List (List Char × Nat)) (addr ln : Nat) (w : Nat)
    (h : encode_instruction instr ops labels addr ln = Except.ok w) :
    reassemble_line (disassemble (format04X w)) = Except.ok w := by
  simp only [encode_instruction] at h
  cases hR : lookupStr R_TYPE_FUNCT instr with
  | some funct =>
    rw [hR] at h
    simp only [] at h
    by_cases hJR : instr = "JR".toList
    · rw [if_pos hJR] at h
      have hf5 : funct = 5 := by
        rw [hJR] at hR
        rw [show lookupStr R_TYPE_FUNCT ("JR".toList) = some 5 from rfl] at hR
        injection hR with hR5
        omega
      subst hf5
      split at h
      · exact Except.noConfusion h
      · cases hpr : parse_register (ops.getD 0 []) ln with
        | error e => rw [hpr] at h; exact Except.noConfusion h
        | ok rs =>
          rw [hpr] at h
          have hrs := parse_register_lt _ _ _ hpr
          have hw : encode_r_type rs 0 0 5 = w := by
            injection (show Except.ok (encode_r_type rs 0 0 5) = Except.ok w from h)
          have h512 : encode_r_type rs 0 0 5 = rs * 512 + 5 := by
            rw [encode_r_type_eq rs 0 0 5 (by omega) (by omega) (by omega)]
          rw [← hw, h512]
          exact roundtrip_jr rs hrs
    · rw [if_neg hJR] at h
      split at h
      · exact Except.noConfusion h
      · cases hp0 : parse_register (ops.getD 0 []) ln with
        | error e => rw [hp0] at h; exact Except.noConfusion h
        | ok rd =>
        rw [hp0] at h
        simp only [ebind_ok] at h
        cases hp1 : parse_register (ops.getD 1 []) ln with
        | error e => rw [hp1] at h; exact Except.noConfusion h
        | ok rs =>
        rw [hp1] at h
        simp only [ebind_ok] at h
        cases hp2 : parse_register (ops.getD 2 []) ln with
        | error e => rw [hp2] at h; exact Except.noConfusion h
        | ok rt =>
        rw [hp2] at h
        have hrd := parse_register_lt _ _ _ hp0
        have hrs := parse_register_lt _ _ _ hp1
        have hrt := parse_register_lt _ _ _ hp2
        have hw : encode_r_type rs rt rd funct = w := by
          injection (show Except.ok (encode_r_type rs rt rd funct) = Except.ok w from h)
        rcases lookupStr_R_cases instr funct hR with
          ⟨hM, hf⟩ | ⟨hM, hf⟩ | ⟨hM, hf⟩ | ⟨hM, hf⟩ | ⟨hM, hf⟩ | ⟨hM, hf⟩
        · subst hf
          rw [← hw, encode_r_type_eq rs rt rd 0 hrt hrd (by omega)]
          exact roundtrip_r3 _ rs rt rd 0 hrs hrt hrd (by omega) rfl rfl
            (by decide) (by decide) (by decide) (by decide)
        · subst hf
          rw [← hw, encode_r_type_eq rs rt rd 1 hrt hrd (by omega)]
          exact roundtrip_r3 _ rs rt rd 1 hrs hrt hrd (by omega) rfl rfl
            (by decide) (by decide) (by decide) (by decide)
        · subst hf
          rw [← hw, encode_r_type_eq rs rt rd 2 hrt hrd (by omega)]
          exact roundtrip_r3 _ rs rt rd 2 hrs hrt hrd (by omega) rfl rfl
            (by decide) (by decide) (by decide) (by decide)
        · subst hf
          rw [← hw, encode_r_type_eq rs rt rd 3 hrt hrd (by omega)]
          exact roundtrip_r3 _ rs rt rd 3 hrs hrt hrd (by omega) rfl rfl
            (by decide) (by decide) (by decide) (by decide)
        · subst hf
          rw [← hw, encode_r_type_eq rs rt rd 4 hrt hrd (by omega)]
          exact roundtrip_r3 _ rs rt rd 4 hrs hrt hrd (by omega) rfl rfl
            (by decide) (by decide) (by decide) (by decide)
        · exact absurd hM hJR
  | none =>
    rw [hR] at h
    simp only [] at h
    cases hI : lookupStr I_TYPE_OPCODES instr with
    | some op =>
      rw [hI] at h
      simp only [] at h
      rcases lookupStr_I_cases instr op hI with
        ⟨hM, hf⟩ | ⟨hM, hf⟩ | ⟨hM, hf⟩ | ⟨hM, hf⟩ | ⟨hM, hf⟩ | ⟨hM, hf⟩ | ⟨hM, hf⟩ | ⟨hM, hf⟩
      · subst hM; subst hf
        rw [if_pos (Or.inl rfl)] at h
        obtain ⟨rs, rt, imm, hrs, hrt, himm, hw⟩ := encode_mem_inv 1 ln w ops h
        rw [← hw, encode_i_type_eq 1 rs rt imm hrs hrt himm]
        exact roundtrip_mem _ 1 rs rt imm (by omega) (by omega) hrs hrt himm
          rfl rfl rfl (Or.inl rfl) (by decide) (by decide) (by decide)
      · subst hM; subst hf
        rw [if_pos (Or.inr rfl)] at h
        obtain ⟨rs, rt, imm, hrs, hrt, himm, hw⟩ := encode_mem_inv 2 ln w ops h
        rw [← hw, encode_i_type_eq 2 rs rt imm hrs hrt himm]
        exact roundtrip_mem _ 2 rs rt imm (by omega) (by omega) hrs hrt himm
          rfl rfl rfl (Or.inr rfl) (by decide) (by decide) (by decide)
      · subst hM; subst hf
        rw [if_neg (by decide), if_neg (by decide)] at h
        obtain ⟨rs, rt, imm, hrs, hrt, himm, hw⟩ := encode_arith_inv 3 ln w ops h
        rw [← hw, encode_i_type_eq 3 rs rt imm hrs hrt himm]
        exact roundtrip_iarith _ 3 rs rt imm (by omega) (by omega) hrs hrt himm
          rfl rfl rfl (by decide) (by decide) (by decide) (by decide) (by decide)
          (by decide) (by decide)
      · subst hM; subst hf
        rw [if_neg (by decide), if_neg (by decide)] at h
        obtain ⟨rs, rt, imm, hrs, hrt, himm, hw⟩ := encode_arith_inv 4 ln w ops h
        rw [← hw, encode_i_type_eq 4 rs rt imm hrs hrt himm]
        exact roundtrip_iarith _ 4 rs rt imm (by omega) (by omega) hrs hrt himm
          rfl rfl rfl (by decide) (by decide) (by decide) (by decide) (by decide)
          (by decide) (by decide)
      · subst hM; subst hf
        rw [if_neg (by decide), if_neg (by decide)] at h
        obtain ⟨rs, rt, imm, hrs, hrt, himm, hw⟩ := encode_arith_inv 5 ln w ops h
        rw [← hw, encode_i_type_eq 5 rs rt imm hrs hrt himm]
        exact roundtrip_iarith _ 5 rs rt imm (by omega) (by omega) hrs hrt himm
          rfl rfl rfl (by decide) (by decide) (by decide) (by decide) (by decide)
          (by decide) (by decide)
      · subst hM; subst hf
        rw [if_neg (by decide), if_pos (Or.inl rfl)] at h
        obtain ⟨rs, rt, imm, hrs, hrt, himm, hw⟩ := encode_br_inv 6 ln w addr ops labels h
        rw [← hw, encode_i_type_eq 6 rs rt imm hrs hrt himm]
        exact roundtrip_branch _ 6 rs rt imm (by omega) (by omega) hrs hrt himm
          rfl rfl rfl (by decide) (by decide) (Or.inl rfl) (by decide) (by decide)
          (by decide)
      · subst hM; subst hf
        rw [if_neg (by decide), if_pos (Or.inr rfl)] at h
        obtain ⟨rs, rt, imm, hrs, hrt, himm, hw⟩ := encode_br_inv 7 ln w addr ops labels h
        rw [← hw, encode_i_type_eq 7 rs rt imm hrs hrt himm]
        exact roundtrip_branch _ 7 rs rt imm (by omega) (by omega) hrs hrt himm
          rfl rfl rfl (by decide) (by decide) (Or.inr rfl) (by decide) (by decide)
          (by decide)
      · subst hM; subst hf
        rw [if_neg (by decide), if_neg (by decide)] at h
        obtain ⟨rs, rt, imm, hrs, hrt, himm, hw⟩ := encode_arith_inv 8 ln w ops h
        rw [← hw, encode_i_type_eq 8 rs rt imm hrs hrt himm]
        exact roundtrip_iarith _ 8 rs rt imm (by omega) (by omega) hrs hrt himm
          rfl rfl rfl (by decide) (by decide) (by decide) (by decide) (by decide)
          (by decide) (by decide)
    | none =>
      rw [hI] at h
      simp only [] at h
      cases hJ : lookupStr J_TYPE_OPCODES instr with
      | some op =>
        rw [hJ] at h
        simp only [] at h
        rcases lookupStr_J_cases instr op hJ with ⟨hM, hf⟩ | ⟨hM, hf⟩
        · subst hM; subst hf
          obtain ⟨a, ha, hw⟩ := encode_j_inv 9 ln w ops labels h
          rw [← hw, encode_j_type_eq 9 a ha]
          exact roundtrip_j_core _ 9 a ha (Or.inl rfl) rfl rfl rfl rfl
            (by decide) (by decide) (by decide)
        · subst hM; subst hf
          obtain ⟨a, ha, hw⟩ := encode_j_inv 10 ln w ops labels h
          rw [← hw, encode_j_type_eq 10 a ha]
          exact roundtrip_j_core _ 10 a ha (Or.inr rfl) rfl rfl rfl rfl
            (by decide) (by decide) (by decide)
      | none => rw [hJ] at h; exact Except.noConfusion h

theorem C2_assembler_roundtrip_witness :
    encode_instruction "ADD".toList ["$r3".toList, "$r1".toList, "$r2".toList]
        [] 0 1 = Except.ok 0x0298 ∧
    reassemble_line (disassemble (format04X 0x0298)) = Except.ok 0x0298 :=
  ⟨rfl, C2_assembler_roundtrip "ADD".toList
    ["$r3".toList, "$r1".toList, "$r2".toList] [] 0 1 0x0298 rfl⟩
